import Mathlib

/-!
Verification development for the WeGo turn engine
(`apps/server/src/game-engine.ts`, `apps/server/src/deterministic.ts`,
`packages/shared/src/index.ts`).

The TypeScript source is shallowly embedded: machine integers are `Nat`
with explicit `% 2^w` truncation, database tables are lists of records,
and the engine's mutable fields are a state record threaded through pure
functions.  Every definition in the first half of this file is a direct
transcription of a source function; theorems about the specification's
claims follow.
-/

set_option maxRecDepth 100000

namespace WeGo

/-! ## SHA-256 over `Nat`

Embedding of `crypto.createHash("sha256")` as used by
`deterministic.ts`.  Words are natural numbers kept below `2^32` by
explicit truncation. -/

/-- Truncate to an unsigned 32-bit word. -/
def w32 (n : Nat) : Nat := n % 4294967296

/-- 32-bit right rotation (operand assumed `< 2^32`). -/
def rotr (n x : Nat) : Nat := w32 ((x >>> n) ||| (x <<< (32 - n)))

def bigS0 (x : Nat) : Nat := (rotr 2 x) ^^^ (rotr 13 x) ^^^ (rotr 22 x)

def bigS1 (x : Nat) : Nat := (rotr 6 x) ^^^ (rotr 11 x) ^^^ (rotr 25 x)

def smallS0 (x : Nat) : Nat := (rotr 7 x) ^^^ (rotr 18 x) ^^^ (x >>> 3)

def smallS1 (x : Nat) : Nat := (rotr 17 x) ^^^ (rotr 19 x) ^^^ (x >>> 10)

def chFn (x y z : Nat) : Nat := (x &&& y) ^^^ ((x ^^^ 4294967295) &&& z)

def majFn (x y z : Nat) : Nat := (x &&& y) ^^^ (x &&& z) ^^^ (y &&& z)

def sha256K : List Nat :=
  [1116352408, 1899447441, 3049323471, 3921009573, 961987163, 1508970993,
   2453635748, 2870763221, 3624381080, 310598401, 607225278, 1426881987,
   1925078388, 2162078206, 2614888103, 3248222580, 3835390401, 4022224774,
   264347078, 604807628, 770255983, 1249150122, 1555081692, 1996064986,
   2554220882, 2821834349, 2952996808, 3210313671, 3336571891, 3584528711,
   113926993, 338241895, 666307205, 773529912, 1294757372, 1396182291,
   1695183700, 1986661051, 2177026350, 2456956037, 2730485921, 2820302411,
   3259730800, 3345764771, 3516065817, 3600352804, 4094571909, 275423344,
   430227734, 506948616, 659060556, 883997877, 958139571, 1322822218,
   1537002063, 1747873779, 1955562222, 2024104815, 2227730452, 2361852424,
   2428436474, 2756734187, 3204031479, 3329325298]

def sha256H0 : List Nat :=
  [1779033703, 3144134277, 1013904242, 2773480762,
   1359893119, 2600822924, 528734635, 1541459225]

structure ShaState where
  a : Nat
  b : Nat
  c : Nat
  d : Nat
  e : Nat
  f : Nat
  g : Nat
  h : Nat
deriving Repr, DecidableEq

/-- One round of the SHA-256 compression function. -/
def shaRound (st : ShaState) (kw : Nat × Nat) : ShaState :=
  let t1 := w32 (st.h + bigS1 st.e + chFn st.e st.f st.g + kw.1 + kw.2)
  let t2 := w32 (bigS0 st.a + majFn st.a st.b st.c)
  { a := w32 (t1 + t2), b := st.a, c := st.b, d := st.c,
    e := w32 (st.d + t1), f := st.e, g := st.f, h := st.g }

/-- Extend a 16-word block to the 64-word message schedule. -/
def extendSchedule (block : List Nat) : List Nat :=
  (List.range 48).foldl
    (fun acc _ =>
      let n := acc.length
      acc ++ [w32 (acc.getD (n - 16) 0 + smallS0 (acc.getD (n - 15) 0) +
                   acc.getD (n - 7) 0 + smallS1 (acc.getD (n - 2) 0))])
    block

/-- Compress one 512-bit block into the running hash value. -/
def compressBlock (hv : List Nat) (block : List Nat) : List Nat :=
  let ws := extendSchedule block
  let st0 : ShaState :=
    ⟨hv.getD 0 0, hv.getD 1 0, hv.getD 2 0, hv.getD 3 0,
     hv.getD 4 0, hv.getD 5 0, hv.getD 6 0, hv.getD 7 0⟩
  let st := (sha256K.zip ws).foldl shaRound st0
  [w32 (hv.getD 0 0 + st.a), w32 (hv.getD 1 0 + st.b), w32 (hv.getD 2 0 + st.c),
   w32 (hv.getD 3 0 + st.d), w32 (hv.getD 4 0 + st.e), w32 (hv.getD 5 0 + st.f),
   w32 (hv.getD 6 0 + st.g), w32 (hv.getD 7 0 + st.h)]

/-- Big-endian 64-bit length field of the padding. -/
def be64 (n : Nat) : List Nat :=
  [(n >>> 56) % 256, (n >>> 48) % 256, (n >>> 40) % 256, (n >>> 32) % 256,
   (n >>> 24) % 256, (n >>> 16) % 256, (n >>> 8) % 256, n % 256]

/-- Big-endian bytes of a 32-bit word. -/
def be32 (n : Nat) : List Nat :=
  [(n >>> 24) % 256, (n >>> 16) % 256, (n >>> 8) % 256, n % 256]

/-- SHA-256 message padding: `0x80`, zeros to 56 mod 64, 64-bit bit length. -/
def padBytes (msg : List Nat) : List Nat :=
  let L := msg.length
  msg ++ [0x80] ++ List.replicate ((119 - L % 64) % 64) 0 ++ be64 (8 * L)

/-- Group bytes into big-endian 32-bit words. -/
def bytesToWords : List Nat → List Nat
  | b0 :: b1 :: b2 :: b3 :: rest =>
      ((b0 <<< 24) ||| (b1 <<< 16) ||| (b2 <<< 8) ||| b3) :: bytesToWords rest
  | _ => []

/-- Split a word list into 16-word blocks (fuel-driven structural recursion). -/
def chunk16 : Nat → List Nat → List (List Nat)
  | 0, _ => []
  | _, [] => []
  | fuel + 1, ws => ws.take 16 :: chunk16 fuel (ws.drop 16)

/-- SHA-256 digest (list of 32 bytes) of a byte message. -/
def sha256Bytes (msg : List Nat) : List Nat :=
  let ws := bytesToWords (padBytes msg)
  let hv := (chunk16 ws.length ws).foldl compressBlock sha256H0
  hv.flatMap be32

/-- UTF-8 encoding of a code point, as `hash.update(value)` encodes strings. -/
def utf8Encode (c : Nat) : List Nat :=
  if c < 0x80 then [c]
  else if c < 0x800 then [0xC0 ||| (c >>> 6), 0x80 ||| (c &&& 0x3F)]
  else if c < 0x10000 then
    [0xE0 ||| (c >>> 12), 0x80 ||| ((c >>> 6) &&& 0x3F), 0x80 ||| (c &&& 0x3F)]
  else
    [0xF0 ||| (c >>> 18), 0x80 ||| ((c >>> 12) &&& 0x3F),
     0x80 ||| ((c >>> 6) &&& 0x3F), 0x80 ||| (c &&& 0x3F)]

def strBytes (s : String) : List Nat := s.data.flatMap (fun c => utf8Encode c.toNat)

/-- Lower-case hex digit, as produced by `digest("hex")`. -/
def hexDigitChar (n : Nat) : Char :=
  if n = 0 then '0' else if n = 1 then '1' else if n = 2 then '2' else if n = 3 then '3'
  else if n = 4 then '4' else if n = 5 then '5' else if n = 6 then '6' else if n = 7 then '7'
  else if n = 8 then '8' else if n = 9 then '9' else if n = 10 then 'a' else if n = 11 then 'b'
  else if n = 12 then 'c' else if n = 13 then 'd' else if n = 14 then 'e' else 'f'

def byteToHex (b : Nat) : List Char := [hexDigitChar (b / 16), hexDigitChar (b % 16)]

/-- Hex digit value, as `Number.parseInt(_, 16)` assigns to each digit. -/
def hexVal (c : Char) : Nat :=
  if c = '0' then 0 else if c = '1' then 1 else if c = '2' then 2 else if c = '3' then 3
  else if c = '4' then 4 else if c = '5' then 5 else if c = '6' then 6 else if c = '7' then 7
  else if c = '8' then 8 else if c = '9' then 9 else if c = 'a' then 10 else if c = 'b' then 11
  else if c = 'c' then 12 else if c = 'd' then 13 else if c = 'e' then 14 else if c = 'f' then 15
  else if c = 'A' then 10 else if c = 'B' then 11 else if c = 'C' then 12 else if c = 'D' then 13
  else if c = 'E' then 14 else if c = 'F' then 15 else 0

/-- Base-16 value of a digit list (all digits valid, as in the digest's hex). -/
def parseHexNat (cs : List Char) : Nat := cs.foldl (fun acc c => acc * 16 + hexVal c) 0

/-- `deterministic.ts` `hashToScore`: first 8 hex digits of the SHA-256
digest, parsed base 16. -/
def hashToScore (value : String) : Nat :=
  parseHexNat (((sha256Bytes (strBytes value)).flatMap byteToHex).take 8)

/-! ## Data model

Records mirroring the Prisma tables (`Turn`, `Order`, `Province`,
`Battle`, `Country`) and the engine's in-memory fields
(`currentTurnId`, `currentTurnNumber`, `currentPhase`, `phaseEndsAt`,
`readyCountries`, `needsNewTurn`).  Timestamps are `Nat` milliseconds;
generated ids/seeds/clock readings are passed as explicit parameters. -/

inductive Phase
  | planning
  | resolve
  | commit
deriving DecidableEq, Repr

inductive OrderType
  | BUILD_FACTORY
  | START_COLONIZATION
  | MOVE_ARMY
deriving DecidableEq, Repr

inductive OrderStatus
  | planned
  | applied
  | rejected
deriving DecidableEq, Repr

structure Turn where
  id : String
  turnNumber : Nat
  phase : Phase
  phaseEndsAt : Option Nat
  committedAt : Option Nat
  seed : String
deriving DecidableEq, Repr

structure Order where
  id : Nat
  turnId : String
  countryId : String
  type : OrderType
  provinceId : String
  targetProvinceId : Option String
  status : OrderStatus
deriving DecidableEq, Repr

structure Province where
  id : String
  name : String
  ownerCountryId : Option String
  contested : Bool
deriving DecidableEq, Repr

structure Battle where
  turnId : String
  provinceId : String
  attackerId : String
  defenderId : Option String
  winnerCountryId : Option String
  summary : String
deriving DecidableEq, Repr

structure SubmitOrderInput where
  type : OrderType
  provinceId : String
  provinceName : Option String
  targetProvinceId : Option String
deriving DecidableEq, Repr

structure EngineState where
  turns : List Turn
  orders : List Order
  provinces : List Province
  battles : List Battle
  countries : List String
  currentTurnId : String
  currentTurnNumber : Nat
  currentPhase : Phase
  phaseEndsAt : Option Nat
  readyCountries : List String
  needsNewTurn : Bool
deriving DecidableEq, Repr

inductive SubmitError
  | PhaseViolation
deriving DecidableEq, Repr

/-! ## Engine operations (`game-engine.ts`) -/

def findTurn (s : EngineState) (tid : String) : Option Turn :=
  s.turns.find? (fun t => t.id == tid)

def updateTurn (s : EngineState) (tid : String) (f : Turn → Turn) : EngineState :=
  { s with turns := s.turns.map (fun t => if t.id == tid then f t else t) }

def updateProvince (s : EngineState) (pid : String) (f : Province → Province) : EngineState :=
  { s with provinces := s.provinces.map (fun p => if p.id == pid then f p else p) }

def updateOrderStatus (s : EngineState) (oid : Nat) (st : OrderStatus) : EngineState :=
  { s with orders := s.orders.map (fun o => if o.id == oid then { o with status := st } else o) }

def rejectOrders (s : EngineState) (oids : List Nat) : EngineState :=
  { s with orders :=
      s.orders.map (fun o => if o.id ∈ oids then { o with status := OrderStatus.rejected } else o) }

/-- `Set.add` over every known country (JS `Set` keeps insertion order,
skips already-present members). -/
def addAll (rs : List String) (cs : List String) : List String :=
  cs.foldl (fun acc c => if c ∈ acc then acc else acc ++ [c]) rs

def insertKey (ks : List String) (p : String) : List String :=
  if p ∈ ks then ks else ks ++ [p]

/-- Keys of the `ordersByProvince` JS `Map`, in first-occurrence order. -/
def groupKeys (orders : List Order) : List String :=
  orders.foldl (fun ks o => insertKey ks o.provinceId) []

/-- The `ordersByProvince` map as an association list: for each key, the
orders with that `provinceId` in encounter order. -/
def groupByProvince (orders : List Order) : List (String × List Order) :=
  (groupKeys orders).map (fun pid => (pid, orders.filter (fun o => o.provinceId == pid)))

def scoreOf (seed provinceId : String) (o : Order) : Nat :=
  hashToScore (seed ++ ":" ++ o.countryId ++ ":" ++ provinceId)

/-- The resolver's ranking: `sort((a, b) => b.score - a.score)`.
JavaScript `Array.prototype.sort` is required to be stable, and with
this consistent comparator its output is exactly the stable descending
order by score, i.e. insertion sort under `y.score ≤ x.score`. -/
def rankOrders (seed provinceId : String) (provinceOrders : List Order) : List (Order × Nat) :=
  (provinceOrders.map (fun o => (o, scoreOf seed provinceId o))).insertionSort
    (fun x y => y.2 ≤ x.2)

/-- Body of the per-province loop of `handleEnterResolve`. -/
def resolveGroup (seed tid : String) (s : EngineState) (g : String × List Order) : EngineState :=
  let provinceId := g.1
  let provinceOrders := g.2
  if provinceOrders.length = 0 then s
  else
    let s1 := if provinceOrders.length > 1 then
        updateProvince s provinceId (fun p => { p with contested := true })
      else s
    match rankOrders seed provinceId provinceOrders with
    | [] => s1
    | winner :: rest =>
      let s2 := updateProvince s1 provinceId
        (fun p => { p with ownerCountryId := some winner.1.countryId, contested := false })
      let s3 := updateOrderStatus s2 winner.1.id OrderStatus.applied
      match rest with
      | [] => s3
      | second :: _ =>
        let s4 := { s3 with battles := s3.battles ++
          [{ turnId := tid, provinceId := provinceId,
             attackerId := winner.1.countryId,
             defenderId := some second.1.countryId,
             winnerCountryId := some winner.1.countryId,
             summary := "Провинция " ++ provinceId ++ ": победила страна " ++ winner.1.countryId }] }
        rejectOrders s4 (rest.map (fun e => e.1.id))

def applyGroups (seed tid : String) (gs : List (String × List Order)) (s : EngineState) :
    EngineState :=
  gs.foldl (resolveGroup seed tid) s

/-- Phase-entry bookkeeping of `handleEnterResolve`: set the in-memory
phase, clear the deadline, auto-ready every known country, and persist
the phase change on the Turn row. -/
def enterResolveSetup (s : EngineState) : EngineState :=
  let s1 := { s with currentPhase := Phase.resolve, phaseEndsAt := none }
  let s2 := { s1 with readyCountries := addAll s1.readyCountries s1.countries }
  updateTurn s2 s2.currentTurnId (fun t => { t with phase := Phase.resolve, phaseEndsAt := none })

/-- `handleEnterResolve`.  `findUniqueOrThrow` aborts resolution if the
current Turn row is missing; that exceptional path performs no further
mutation, modelled by returning the setup state unchanged. -/
def handleEnterResolve (s : EngineState) : EngineState :=
  let sA := enterResolveSetup s
  match findTurn sA sA.currentTurnId with
  | none => sA
  | some turn =>
    let orders := sA.orders.filter
      (fun o => o.turnId == sA.currentTurnId && o.type == OrderType.START_COLONIZATION)
    applyGroups turn.seed sA.currentTurnId (groupByProvince orders) sA

/-- `prisma.province.upsert` in `ensureProvince`. -/
def ensureProvince (s : EngineState) (pid : String) (name : Option String) : EngineState :=
  match s.provinces.find? (fun p => p.id == pid) with
  | some _ =>
    { s with provinces := s.provinces.map (fun p =>
        if p.id == pid then
          match name with
          | some n => { p with name := n }
          | none => p
        else p) }
  | none =>
    { s with provinces := s.provinces ++
        [{ id := pid, name := name.getD pid, ownerCountryId := none, contested := false }] }

/-- `refreshContestedFlags`: clear every flag, then set it on provinces
with more than one claim order in the current turn. -/
def refreshContestedFlags (s : EngineState) : EngineState :=
  let cleared := s.provinces.map (fun p => { p with contested := false })
  let claims := s.orders.filter
    (fun o => o.turnId == s.currentTurnId && o.type == OrderType.START_COLONIZATION)
  let contestedIds := (groupKeys claims).filter
    (fun pid => (claims.filter (fun o => o.provinceId == pid)).length > 1)
  { s with provinces := cleared.map (fun p =>
      if p.id ∈ contestedIds then { p with contested := true } else p) }

/-- `submitOrder`.  The generated row id is passed in as `newId`; the
thrown phase-guard error is the spec's `PhaseViolation`. -/
def submitOrder (s : EngineState) (countryId : String) (input : SubmitOrderInput)
    (newId : Nat) : Except SubmitError EngineState :=
  if s.currentPhase ≠ Phase.planning then Except.error SubmitError.PhaseViolation
  else
    let s1 := ensureProvince s input.provinceId input.provinceName
    let s2 := { s1 with orders := s1.orders.filter (fun o =>
        !(o.turnId == s1.currentTurnId && o.countryId == countryId &&
          o.type == input.type && o.provinceId == input.provinceId)) }
    let newOrder : Order :=
      { id := newId, turnId := s2.currentTurnId, countryId := countryId,
        type := input.type, provinceId := input.provinceId,
        targetProvinceId := input.targetProvinceId, status := OrderStatus.planned }
    let s3 := { s2 with orders := s2.orders ++ [newOrder] }
    Except.ok (refreshContestedFlags s3)

/-- `prisma.turn.findFirst({ orderBy: { turnNumber: "desc" } })`. -/
def latestTurn (s : EngineState) : Option Turn :=
  s.turns.foldl
    (fun acc t =>
      match acc with
      | none => some t
      | some b => if b.turnNumber < t.turnNumber then some t else some b)
    none

/-- The turn-creation branch of `ensurePlanningTurn`. -/
def createPlanningTurn (s : EngineState) (planningDurationMs n : Nat)
    (newTurnId newSeed : String) (now : Nat) : EngineState :=
  let t : Turn :=
    { id := newTurnId, turnNumber := n, phase := Phase.planning,
      phaseEndsAt := some (now + planningDurationMs), committedAt := none, seed := newSeed }
  { s with
    turns := s.turns ++ [t], currentTurnId := t.id, currentTurnNumber := t.turnNumber,
    currentPhase := Phase.planning, phaseEndsAt := t.phaseEndsAt,
    readyCountries := [], needsNewTurn := false }

/-- `ensurePlanningTurn`.  The fresh turn id, seed (`crypto.randomUUID`)
and clock reading are explicit parameters. -/
def ensurePlanningTurn (s : EngineState) (planningDurationMs : Nat)
    (newTurnId newSeed : String) (now : Nat) : EngineState :=
  match latestTurn s with
  | none => createPlanningTurn s planningDurationMs 1 newTurnId newSeed now
  | some latest =>
    if latest.phase ≠ Phase.planning then
      createPlanningTurn s planningDurationMs (latest.turnNumber + 1) newTurnId newSeed now
    else
      { s with
        currentTurnId := latest.id, currentTurnNumber := latest.turnNumber,
        currentPhase := Phase.planning, phaseEndsAt := latest.phaseEndsAt,
        readyCountries := [], needsNewTurn := false }

/-! ## Generic list lemmas -/

theorem filter_map_comm {α} (f : α → α) (p : α → Bool) (h : ∀ a, p (f a) = p a) :
    ∀ l : List α, (l.map f).filter p = (l.filter p).map f := by
  intro l
  induction l with
  | nil => rfl
  | cons a t ih =>
    simp only [List.map_cons, List.filter_cons, h a]
    cases hp : p a <;> simp [hp, ih]

theorem find?_map_comm {α} (f : α → α) (p : α → Bool) (h : ∀ a, p (f a) = p a) :
    ∀ l : List α, (l.map f).find? p = (l.find? p).map f := by
  intro l
  induction l with
  | nil => rfl
  | cons a t ih =>
    cases hp : p a
    · rw [List.map_cons, List.find?_cons_of_neg _ (by simp [h a, hp]),
        List.find?_cons_of_neg _ (by simp [hp]), ih]
    · rw [List.map_cons, List.find?_cons_of_pos _ (by simp [h a, hp]),
        List.find?_cons_of_pos _ (by simp [hp]), Option.map_some']

/-! ## Lemmas about the `ordersByProvince` grouping -/

theorem mem_insertKey {ks : List String} {p q : String} :
    p ∈ insertKey ks q ↔ p ∈ ks ∨ p = q := by
  unfold insertKey
  by_cases hq : q ∈ ks
  · simp only [if_pos hq]
    exact ⟨Or.inl, fun h => h.elim id (fun e => e ▸ hq)⟩
  · simp [if_neg hq]

theorem nodup_insertKey {ks : List String} {q : String} (h : ks.Nodup) :
    (insertKey ks q).Nodup := by
  unfold insertKey
  by_cases hq : q ∈ ks
  · simpa [if_pos hq] using h
  · simp only [if_neg hq, List.nodup_append, List.nodup_cons]
    exact ⟨h, by simp, by intro a ha hmem; simp at hmem; exact hq (hmem ▸ ha)⟩

theorem groupKeysAux_mem :
    ∀ (l : List Order) (ks : List String) (p : String),
      p ∈ l.foldl (fun ks o => insertKey ks o.provinceId) ks ↔
        p ∈ ks ∨ ∃ o ∈ l, o.provinceId = p := by
  intro l
  induction l with
  | nil => simp
  | cons a t ih =>
    intro ks p
    rw [List.foldl_cons, ih]
    constructor
    · rintro (hk | ho)
      · rcases mem_insertKey.mp hk with hk | rfl
        · exact Or.inl hk
        · exact Or.inr ⟨a, by simp⟩
      · rcases ho with ⟨o, ho, rfl⟩
        exact Or.inr ⟨o, by simp [ho]⟩
    · rintro (hk | ⟨o, ho, rfl⟩)
      · exact Or.inl (mem_insertKey.mpr (Or.inl hk))
      · rcases List.mem_cons.mp ho with rfl | ho
        · exact Or.inl (mem_insertKey.mpr (Or.inr rfl))
        · exact Or.inr ⟨o, ho, rfl⟩

theorem groupKeys_mem {l : List Order} {p : String} :
    p ∈ groupKeys l ↔ ∃ o ∈ l, o.provinceId = p := by
  rw [groupKeys, groupKeysAux_mem]; simp

theorem groupKeysAux_nodup :
    ∀ (l : List Order) (ks : List String), ks.Nodup →
      (l.foldl (fun ks o => insertKey ks o.provinceId) ks).Nodup := by
  intro l
  induction l with
  | nil => intro ks h; simpa using h
  | cons a t ih => intro ks h; exact ih _ (nodup_insertKey h)

theorem groupKeys_nodup (l : List Order) : (groupKeys l).Nodup :=
  groupKeysAux_nodup l [] List.nodup_nil

/-! ## Lemmas about the resolver's ranking -/

theorem rank_perm (seed p : String) (l : List Order) :
    (rankOrders seed p l).Perm (l.map (fun o => (o, scoreOf seed p o))) :=
  List.perm_insertionSort _ _

theorem rank_length (seed p : String) (l : List Order) :
    (rankOrders seed p l).length = l.length := by
  rw [(rank_perm seed p l).length_eq, List.length_map]

theorem mem_rank_of_mem {seed p : String} {l : List Order} {o : Order} (h : o ∈ l) :
    (o, scoreOf seed p o) ∈ rankOrders seed p l :=
  (rank_perm seed p l).mem_iff.mpr (List.mem_map_of_mem _ h)

theorem of_mem_rank {seed p : String} {l : List Order} {e : Order × Nat}
    (h : e ∈ rankOrders seed p l) : e.1 ∈ l := by
  rcases List.mem_map.mp ((rank_perm seed p l).mem_iff.mp h) with ⟨o, ho, rfl⟩
  exact ho

/-- Ids occurring in a group's ranking, in rank order. -/
def groupIds (seed : String) (g : String × List Order) : List Nat :=
  (rankOrders seed g.1 g.2).map (fun e => e.1.id)

theorem groupIds_perm (seed : String) (g : String × List Order) :
    (groupIds seed g).Perm (g.2.map Order.id) := by
  have h := (rank_perm seed g.1 g.2).map (fun e : Order × Nat => e.1.id)
  rwa [List.map_map] at h

theorem mem_groupIds_of_mem {seed : String} {g : String × List Order} {o : Order}
    (h : o ∈ g.2) : o.id ∈ groupIds seed g :=
  (groupIds_perm seed g).mem_iff.mpr (List.mem_map_of_mem _ h)

theorem of_mem_groupIds {seed : String} {g : String × List Order} {i : Nat}
    (h : i ∈ groupIds seed g) : ∃ o ∈ g.2, o.id = i := by
  rcases List.mem_map.mp ((groupIds_perm seed g).mem_iff.mp h) with ⟨o, ho, rfl⟩
  exact ⟨o, ho, rfl⟩

/-! ## Effect characterization of `resolveGroup` -/

/-- Net effect of one resolve group on a province row: the winner's
ownership write.  The transient `contested := true` write of a contested
group is overwritten by `contested := false` within the same group. -/
def writeProv (seed : String) (g : String × List Order) (pr : Province) : Province :=
  match (rankOrders seed g.1 g.2).head? with
  | none => pr
  | some w =>
    if pr.id = g.1 then { pr with ownerCountryId := some w.1.countryId, contested := false }
    else pr

/-- Net effect of one resolve group on an order status, keyed by order id.
The losers' `REJECTED` update runs after the winner's `APPLIED` update,
so a loser-id match takes precedence. -/
def writeStatus (seed : String) (g : String × List Order) (oid : Nat) (st : OrderStatus) :
    OrderStatus :=
  match rankOrders seed g.1 g.2 with
  | [] => st
  | w :: rest =>
    if oid ∈ rest.map (fun e => e.1.id) then OrderStatus.rejected
    else if oid = w.1.id then OrderStatus.applied
    else st

def writeOrder (seed : String) (g : String × List Order) (o : Order) : Order :=
  { o with status := writeStatus seed g o.id o.status }

/-- The ResolutionRecord rows appended by one group (one iff contested). -/
def groupBattles (seed tid : String) (g : String × List Order) : List Battle :=
  match rankOrders seed g.1 g.2 with
  | [] => []
  | [_] => []
  | w :: second :: _ =>
    [{ turnId := tid, provinceId := g.1, attackerId := w.1.countryId,
       defenderId := some second.1.countryId, winnerCountryId := some w.1.countryId,
       summary := "Провинция " ++ g.1 ++ ": победила страна " ++ w.1.countryId }]

theorem engineState_ext {s t : EngineState}
    (ht : s.turns = t.turns) (ho : s.orders = t.orders) (hp : s.provinces = t.provinces)
    (hb : s.battles = t.battles) (hc : s.countries = t.countries)
    (h1 : s.currentTurnId = t.currentTurnId) (h2 : s.currentTurnNumber = t.currentTurnNumber)
    (h3 : s.currentPhase = t.currentPhase) (h4 : s.phaseEndsAt = t.phaseEndsAt)
    (h5 : s.readyCountries = t.readyCountries) (h6 : s.needsNewTurn = t.needsNewTurn) :
    s = t := by
  cases s; cases t; simp_all

theorem resolveGroup_eq (seed tid : String) (s : EngineState) (g : String × List Order) :
    resolveGroup seed tid s g =
      { s with
        provinces := s.provinces.map (writeProv seed g),
        orders := s.orders.map (writeOrder seed g),
        battles := s.battles ++ groupBattles seed tid g } := by
  rcases g with ⟨p, members⟩
  by_cases h0 : members.length = 0
  · have hm : members = [] := List.length_eq_zero.mp h0
    subst hm
    have hwo : s.orders.map (writeOrder seed (p, [])) = s.orders := by
      have h : writeOrder seed (p, []) = fun o => o := funext (fun o => rfl)
      rw [h, List.map_id']
    have hwp : s.provinces.map (writeProv seed (p, [])) = s.provinces := by
      have h : writeProv seed (p, []) = fun pr => pr := funext (fun pr => rfl)
      rw [h, List.map_id']
    exact engineState_ext rfl hwo.symm hwp.symm
      (show s.battles = s.battles ++ [] by rw [List.append_nil])
      rfl rfl rfl rfl rfl rfl rfl
  · cases hr : rankOrders seed p members with
    | nil =>
      exact absurd (by rw [← rank_length seed p members, hr]; rfl) h0
    | cons w rest =>
      cases rest with
      | nil =>
        have hl : ¬ members.length > 1 := by
          rw [← rank_length seed p members, hr]; simp
        apply engineState_ext <;>
          simp only [resolveGroup, if_neg h0, if_neg hl, hr, updateProvince,
            updateOrderStatus, List.append_nil, groupBattles]
        · -- orders
          apply List.map_congr_left
          intro o _
          by_cases hid : o.id = w.1.id
          · simp [writeOrder, writeStatus, hr, hid]
          · simp [writeOrder, writeStatus, hr, hid]
        · -- provinces
          apply List.map_congr_left
          intro pr _
          by_cases hpr : pr.id = p
          · simp [writeProv, hr, hpr]
          · simp [writeProv, hr, hpr]
      | cons second rest2 =>
        have hl : members.length > 1 := by
          rw [← rank_length seed p members, hr]; simp
        apply engineState_ext <;>
          simp only [resolveGroup, if_neg h0, if_pos hl, hr, updateProvince,
            updateOrderStatus, rejectOrders, groupBattles, List.map_map]
        · -- orders
          apply List.map_congr_left
          intro o _
          obtain ⟨i, f1, f2, f3, f4, f5, f6⟩ := o
          simp only [Function.comp]
          by_cases hmem : i ∈ second.1.id :: rest2.map (fun e => e.1.id)
          · by_cases hid : i = w.1.id
            · subst hid; simp [writeOrder, writeStatus, hr, hmem]
            · simp [writeOrder, writeStatus, hr, hmem, hid]
          · by_cases hid : i = w.1.id
            · subst hid; simp [writeOrder, writeStatus, hr, hmem]
            · simp [writeOrder, writeStatus, hr, hmem, hid]
        · -- provinces
          apply List.map_congr_left
          intro pr _
          obtain ⟨i, n1, n2, n3⟩ := pr
          simp only [Function.comp]
          by_cases hpr : i = p
          · subst hpr; simp [writeProv, hr]
          · simp [writeProv, hr, hpr]

/-! ## Composition over the whole group list -/

def foldWriteProv (seed : String) (gs : List (String × List Order)) (pr : Province) : Province :=
  gs.foldl (fun x g => writeProv seed g x) pr

def foldWriteOrder (seed : String) (gs : List (String × List Order)) (o : Order) : Order :=
  gs.foldl (fun x g => writeOrder seed g x) o

def foldBattles (seed tid : String) (gs : List (String × List Order)) : List Battle :=
  (gs.map (groupBattles seed tid)).flatten

theorem applyGroups_eq (seed tid : String) :
    ∀ (gs : List (String × List Order)) (s : EngineState),
      applyGroups seed tid gs s =
        { s with
          provinces := s.provinces.map (foldWriteProv seed gs),
          orders := s.orders.map (foldWriteOrder seed gs),
          battles := s.battles ++ foldBattles seed tid gs } := by
  intro gs
  induction gs with
  | nil =>
    intro s
    have hwp : s.provinces.map (foldWriteProv seed []) = s.provinces := by
      have h : foldWriteProv seed [] = fun pr => pr := funext fun pr => rfl
      rw [h, List.map_id']
    have hwo : s.orders.map (foldWriteOrder seed []) = s.orders := by
      have h : foldWriteOrder seed [] = fun o => o := funext fun o => rfl
      rw [h, List.map_id']
    exact engineState_ext rfl hwo.symm hwp.symm
      (show s.battles = s.battles ++ [] by rw [List.append_nil]) rfl rfl rfl rfl rfl rfl rfl
  | cons g gs ih =>
    intro s
    have h1 : applyGroups seed tid (g :: gs) s =
        applyGroups seed tid gs (resolveGroup seed tid s g) := rfl
    rw [h1, ih, resolveGroup_eq]
    refine engineState_ext rfl ?_ ?_ ?_ rfl rfl rfl rfl rfl rfl rfl
    · dsimp only; rw [List.map_map]; rfl
    · dsimp only; rw [List.map_map]; rfl
    · dsimp only; rw [List.append_assoc]; rfl

/-- Current-turn claim orders, exactly the list `handleEnterResolve`
fetches for conflict resolution. -/
def claimsOf (s : EngineState) : List Order :=
  s.orders.filter
    (fun o => o.turnId == s.currentTurnId && o.type == OrderType.START_COLONIZATION)

theorem handleEnterResolve_def (s : EngineState) :
    handleEnterResolve s =
      match findTurn (enterResolveSetup s) s.currentTurnId with
      | none => enterResolveSetup s
      | some turn =>
        applyGroups turn.seed s.currentTurnId (groupByProvince (claimsOf s))
          (enterResolveSetup s) := rfl

theorem handleEnterResolve_eq_none (s : EngineState)
    (h : findTurn (enterResolveSetup s) s.currentTurnId = none) :
    handleEnterResolve s = enterResolveSetup s := by
  rw [handleEnterResolve_def, h]

theorem handleEnterResolve_eq_some (s : EngineState) (turn : Turn)
    (h : findTurn (enterResolveSetup s) s.currentTurnId = some turn) :
    handleEnterResolve s =
      { enterResolveSetup s with
        provinces := s.provinces.map (foldWriteProv turn.seed (groupByProvince (claimsOf s))),
        orders := s.orders.map (foldWriteOrder turn.seed (groupByProvince (claimsOf s))),
        battles := s.battles ++
          foldBattles turn.seed s.currentTurnId (groupByProvince (claimsOf s)) } := by
  rw [handleEnterResolve_def, h]
  dsimp only
  rw [applyGroups_eq]
  rfl

/-! ## Per-row evaluation of the folded effects -/

def foldStatus (seed : String) (gs : List (String × List Order)) (oid : Nat)
    (st : OrderStatus) : OrderStatus :=
  gs.foldl (fun x g => writeStatus seed g oid x) st

theorem foldWriteOrder_eq (seed : String) :
    ∀ (gs : List (String × List Order)) (o : Order),
      foldWriteOrder seed gs o = { o with status := foldStatus seed gs o.id o.status } := by
  intro gs
  induction gs with
  | nil => intro o; rfl
  | cons g gs ih =>
    intro o
    have h1 : foldWriteOrder seed (g :: gs) o = foldWriteOrder seed gs (writeOrder seed g o) :=
      rfl
    rw [h1, ih]
    rfl

/-- Pointwise effect of one group on the mutable pair
(ownerCountryId, contested) of a province row with id `i`. -/
def provVal (seed : String) (g : String × List Order) (i : String)
    (v : Option String × Bool) : Option String × Bool :=
  match (rankOrders seed g.1 g.2).head? with
  | none => v
  | some w => if i = g.1 then (some w.1.countryId, false) else v

def foldProvVal (seed : String) (gs : List (String × List Order)) (i : String)
    (v : Option String × Bool) : Option String × Bool :=
  gs.foldl (fun x g => provVal seed g i x) v

theorem writeProv_eq (seed : String) (g : String × List Order) (pr : Province) :
    writeProv seed g pr =
      { pr with
        ownerCountryId := (provVal seed g pr.id (pr.ownerCountryId, pr.contested)).1,
        contested := (provVal seed g pr.id (pr.ownerCountryId, pr.contested)).2 } := by
  unfold writeProv provVal
  cases (rankOrders seed g.1 g.2).head? with
  | none => rfl
  | some w =>
    by_cases hpr : pr.id = g.1
    · simp [hpr]
    · simp [hpr]

theorem foldWriteProv_eq (seed : String) :
    ∀ (gs : List (String × List Order)) (pr : Province),
      foldWriteProv seed gs pr =
        { pr with
          ownerCountryId := (foldProvVal seed gs pr.id (pr.ownerCountryId, pr.contested)).1,
          contested := (foldProvVal seed gs pr.id (pr.ownerCountryId, pr.contested)).2 } := by
  intro gs
  induction gs with
  | nil => intro pr; rfl
  | cons g gs ih =>
    intro pr
    have h1 : foldWriteProv seed (g :: gs) pr = foldWriteProv seed gs (writeProv seed g pr) :=
      rfl
    rw [h1, writeProv_eq, ih]
    rfl

/-! ### Which groups touch which rows -/

theorem writeStatus_of_not_mem {seed : String} {g : String × List Order} {oid : Nat}
    (h : oid ∉ groupIds seed g) (st : OrderStatus) : writeStatus seed g oid st = st := by
  unfold writeStatus
  unfold groupIds at h
  cases hr : rankOrders seed g.1 g.2 with
  | nil => rfl
  | cons w rest =>
    rw [hr, List.map_cons] at h
    have h1 : ¬ oid ∈ rest.map (fun e => e.1.id) := fun hm => h (List.mem_cons_of_mem _ hm)
    have h2 : ¬ oid = w.1.id := fun he => h (he ▸ List.mem_cons_self _ _)
    simp [h1, h2]

theorem writeStatus_of_mem {seed : String} {g : String × List Order} {oid : Nat}
    (h : oid ∈ groupIds seed g) (st : OrderStatus) :
    writeStatus seed g oid st = OrderStatus.applied ∨
      writeStatus seed g oid st = OrderStatus.rejected := by
  unfold writeStatus
  unfold groupIds at h
  cases hr : rankOrders seed g.1 g.2 with
  | nil => rw [hr] at h; simp at h
  | cons w rest =>
    rw [hr, List.map_cons] at h
    dsimp only
    by_cases hm : oid ∈ rest.map (fun e => e.1.id)
    · right; rw [if_pos hm]
    · have he : oid = w.1.id := by
        rcases List.mem_cons.mp h with he | hm'
        · exact he
        · exact absurd hm' hm
      left; rw [if_neg hm, if_pos he]

theorem writeStatus_preserves {seed : String} {g : String × List Order} {oid : Nat}
    {st : OrderStatus}
    (h : st = OrderStatus.applied ∨ st = OrderStatus.rejected) :
    writeStatus seed g oid st = OrderStatus.applied ∨
      writeStatus seed g oid st = OrderStatus.rejected := by
  unfold writeStatus
  cases rankOrders seed g.1 g.2 with
  | nil => exact h
  | cons w rest =>
    dsimp only
    by_cases hm : oid ∈ rest.map (fun e => e.1.id)
    · right; rw [if_pos hm]
    · by_cases he : oid = w.1.id
      · left; rw [if_neg hm, if_pos he]
      · rw [if_neg hm, if_neg he]; exact h

theorem foldStatus_preserves {seed : String} {oid : Nat} :
    ∀ (gs : List (String × List Order)) (st : OrderStatus),
      (st = OrderStatus.applied ∨ st = OrderStatus.rejected) →
      foldStatus seed gs oid st = OrderStatus.applied ∨
        foldStatus seed gs oid st = OrderStatus.rejected := by
  intro gs
  induction gs with
  | nil => intro st h; exact h
  | cons g gs ih => intro st h; exact ih _ (writeStatus_preserves h)

theorem foldStatus_untouched {seed : String} {oid : Nat} :
    ∀ (gs : List (String × List Order)) (st : OrderStatus),
      (∀ g ∈ gs, oid ∉ groupIds seed g) → foldStatus seed gs oid st = st := by
  intro gs
  induction gs with
  | nil => intro st _; rfl
  | cons g gs ih =>
    intro st h
    have h1 : foldStatus seed (g :: gs) oid st =
        foldStatus seed gs oid (writeStatus seed g oid st) := rfl
    rw [h1, writeStatus_of_not_mem (h g (List.mem_cons_self _ _)) st]
    exact ih st (fun g' hg' => h g' (List.mem_cons_of_mem _ hg'))

theorem foldStatus_append {seed : String} {oid : Nat} (l1 l2 : List (String × List Order))
    (st : OrderStatus) :
    foldStatus seed (l1 ++ l2) oid st = foldStatus seed l2 oid (foldStatus seed l1 oid st) :=
  List.foldl_append _ _ _ _

theorem foldStatus_single {seed : String} {oid : Nat} {g : String × List Order}
    {l1 l2 : List (String × List Order)} (st : OrderStatus)
    (h1 : ∀ g' ∈ l1, oid ∉ groupIds seed g') (h2 : ∀ g' ∈ l2, oid ∉ groupIds seed g') :
    foldStatus seed (l1 ++ g :: l2) oid st = writeStatus seed g oid st := by
  rw [foldStatus_append, foldStatus_untouched l1 st h1]
  have h3 : foldStatus seed (g :: l2) oid st =
      foldStatus seed l2 oid (writeStatus seed g oid st) := rfl
  rw [h3, foldStatus_untouched l2 _ h2]

theorem provVal_of_ne {seed : String} {g : String × List Order} {i : String}
    (h : i ≠ g.1) (v : Option String × Bool) : provVal seed g i v = v := by
  unfold provVal
  cases (rankOrders seed g.1 g.2).head? with
  | none => rfl
  | some w => simp [h]

theorem foldProvVal_untouched {seed : String} {i : String} :
    ∀ (gs : List (String × List Order)) (v : Option String × Bool),
      (∀ g ∈ gs, i ≠ g.1) → foldProvVal seed gs i v = v := by
  intro gs
  induction gs with
  | nil => intro v _; rfl
  | cons g gs ih =>
    intro v h
    have h1 : foldProvVal seed (g :: gs) i v =
        foldProvVal seed gs i (provVal seed g i v) := rfl
    rw [h1, provVal_of_ne (h g (List.mem_cons_self _ _)) v]
    exact ih v (fun g' hg' => h g' (List.mem_cons_of_mem _ hg'))

theorem foldProvVal_single {seed : String} {i : String} {g : String × List Order}
    {l1 l2 : List (String × List Order)} (v : Option String × Bool)
    (h1 : ∀ g' ∈ l1, i ≠ g'.1) (h2 : ∀ g' ∈ l2, i ≠ g'.1) :
    foldProvVal seed (l1 ++ g :: l2) i v = provVal seed g i v := by
  have ha : foldProvVal seed (l1 ++ g :: l2) i v =
      foldProvVal seed (g :: l2) i (foldProvVal seed l1 i v) :=
    List.foldl_append _ _ _ _
  rw [ha, foldProvVal_untouched l1 v h1]
  have h3 : foldProvVal seed (g :: l2) i v =
      foldProvVal seed l2 i (provVal seed g i v) := rfl
  rw [h3, foldProvVal_untouched l2 _ h2]

/-! ### Facts about `groupByProvince` at the claims level -/

theorem groupByProvince_keys (l : List Order) :
    (groupByProvince l).map Prod.fst = groupKeys l := by
  unfold groupByProvince
  rw [List.map_map]
  exact List.map_id' _

theorem mem_groupByProvince {l : List Order} {p : String} (h : p ∈ groupKeys l) :
    (p, l.filter (fun o => o.provinceId == p)) ∈ groupByProvince l :=
  List.mem_map_of_mem _ h

theorem mem_group_members {l : List Order} {g : String × List Order}
    (h : g ∈ groupByProvince l) : ∀ o ∈ g.2, o ∈ l ∧ o.provinceId = g.1 := by
  rcases List.mem_map.mp h with ⟨p, _, rfl⟩
  intro o ho
  rcases List.mem_filter.mp ho with ⟨h1, h2⟩
  exact ⟨h1, by simpa using h2⟩

theorem eq_of_id_eq {l : List Order} (hnd : (l.map Order.id).Nodup)
    {o1 o2 : Order} (h1 : o1 ∈ l) (h2 : o2 ∈ l) (h : o1.id = o2.id) : o1 = o2 :=
  List.inj_on_of_nodup_map hnd h1 h2 h

theorem claims_ids_nodup {s : EngineState} (h : (s.orders.map Order.id).Nodup) :
    ((claimsOf s).map Order.id).Nodup :=
  List.Nodup.sublist (List.Sublist.map Order.id (List.filter_sublist s.orders)) h

/-- With unique order ids, a claim order's id never appears in the
ranking of a group for a different target. -/
theorem not_mem_other_group {s : EngineState} (hnd : (s.orders.map Order.id).Nodup)
    {o : Order} (ho : o ∈ claimsOf s) {seed : String} {g : String × List Order}
    (hg : g ∈ groupByProvince (claimsOf s)) (hne : g.1 ≠ o.provinceId) :
    o.id ∉ groupIds seed g := by
  intro hmem
  rcases of_mem_groupIds hmem with ⟨o2, ho2, hid⟩
  rcases mem_group_members hg o2 ho2 with ⟨ho2c, hpid⟩
  have he : o2 = o := eq_of_id_eq (claims_ids_nodup hnd) ho2c ho hid
  rw [he] at hpid
  exact hne hpid.symm

/-- The group list splits around any key, with all other keys different. -/
theorem split_groups {s : EngineState} {p : String} (hp : p ∈ groupKeys (claimsOf s)) :
    ∃ l1 l2, groupByProvince (claimsOf s) =
      l1 ++ (p, (claimsOf s).filter (fun o => o.provinceId == p)) :: l2 ∧
      (∀ g' ∈ l1, g'.1 ≠ p) ∧ (∀ g' ∈ l2, g'.1 ≠ p) := by
  obtain ⟨l1, l2, hsplit⟩ := List.append_of_mem (mem_groupByProvince hp)
  refine ⟨l1, l2, hsplit, ?_, ?_⟩
  all_goals
    have hnd : ((groupByProvince (claimsOf s)).map Prod.fst).Nodup := by
      rw [groupByProvince_keys]; exact groupKeys_nodup _
  all_goals rw [hsplit, List.map_append, List.map_cons] at hnd
  all_goals rcases List.nodup_append.mp hnd with ⟨_, h2, hdisj⟩
  · intro g' hg' he
    exact hdisj (List.mem_map_of_mem Prod.fst hg')
      (he ▸ List.mem_cons_self _ _)
  · intro g' hg' he
    rcases List.nodup_cons.mp h2 with ⟨hnotin, _⟩
    have hmem : g'.1 ∈ l2.map Prod.fst := List.mem_map_of_mem Prod.fst hg'
    rw [he] at hmem
    exact hnotin hmem

/-! ### Battle bookkeeping -/

theorem groupBattles_pid {seed tid : String} {g : String × List Order} {b : Battle}
    (hb : b ∈ groupBattles seed tid g) : b.provinceId = g.1 ∧ b.turnId = tid := by
  unfold groupBattles at hb
  rcases hr : rankOrders seed g.1 g.2 with _ | ⟨w, _ | ⟨second, rest2⟩⟩ <;> rw [hr] at hb
  · simp at hb
  · simp at hb
  · rcases List.mem_singleton.mp hb with rfl
    exact ⟨rfl, rfl⟩

theorem foldBattles_filter_none {seed tid p : String} :
    ∀ gs : List (String × List Order), (∀ g' ∈ gs, g'.1 ≠ p) →
      (foldBattles seed tid gs).filter (fun b => b.provinceId == p) = [] := by
  intro gs
  induction gs with
  | nil => intro _; rfl
  | cons g gs ih =>
    intro h
    have h1 : foldBattles seed tid (g :: gs) =
        groupBattles seed tid g ++ foldBattles seed tid gs := rfl
    rw [h1, List.filter_append, ih (fun g' hg' => h g' (List.mem_cons_of_mem _ hg')),
      List.append_nil]
    rw [List.filter_eq_nil_iff]
    intro b hb
    have := (groupBattles_pid hb).1
    simp [this, h g (List.mem_cons_self _ _)]

theorem foldBattles_filter_single {seed tid p : String} {g : String × List Order}
    {l1 l2 : List (String × List Order)} (hg : g.1 = p)
    (h1 : ∀ g' ∈ l1, g'.1 ≠ p) (h2 : ∀ g' ∈ l2, g'.1 ≠ p) :
    (foldBattles seed tid (l1 ++ g :: l2)).filter (fun b => b.provinceId == p) =
      groupBattles seed tid g := by
  have ha : foldBattles seed tid (l1 ++ g :: l2) =
      foldBattles seed tid l1 ++ (groupBattles seed tid g ++ foldBattles seed tid l2) := by
    unfold foldBattles
    rw [List.map_append, List.flatten_append, List.map_cons, List.flatten_cons]
  rw [ha, List.filter_append, List.filter_append, foldBattles_filter_none l1 h1,
    foldBattles_filter_none l2 h2, List.append_nil, List.nil_append]
  rw [List.filter_eq_self]
  intro b hb
  have := (groupBattles_pid hb).1
  simp [this, hg]

theorem foldStatus_AR_of_mem {seed : String} {oid : Nat} {g : String × List Order}
    {gs : List (String × List Order)} (hg : g ∈ gs) (hmem : oid ∈ groupIds seed g)
    (st : OrderStatus) :
    foldStatus seed gs oid st = OrderStatus.applied ∨
      foldStatus seed gs oid st = OrderStatus.rejected := by
  obtain ⟨l1, l2, rfl⟩ := List.append_of_mem hg
  rw [foldStatus_append]
  have h3 : foldStatus seed (g :: l2) oid (foldStatus seed l1 oid st) =
      foldStatus seed l2 oid (writeStatus seed g oid (foldStatus seed l1 oid st)) := rfl
  rw [h3]
  exact foldStatus_preserves l2 _ (writeStatus_of_mem hmem _)

/-! ### Unchanged-field projections -/

theorem ensureProvince_orders (s : EngineState) (pid : String) (name : Option String) :
    (ensureProvince s pid name).orders = s.orders := by
  unfold ensureProvince
  cases s.provinces.find? (fun p => p.id == pid) <;> rfl

theorem ensureProvince_currentTurnId (s : EngineState) (pid : String) (name : Option String) :
    (ensureProvince s pid name).currentTurnId = s.currentTurnId := by
  unfold ensureProvince
  cases s.provinces.find? (fun p => p.id == pid) <;> rfl

theorem refreshContestedFlags_orders (s : EngineState) :
    (refreshContestedFlags s).orders = s.orders := rfl

theorem handleEnterResolve_phaseEndsAt (s : EngineState) :
    (handleEnterResolve s).phaseEndsAt = none := by
  cases hf : findTurn (enterResolveSetup s) s.currentTurnId with
  | none => rw [handleEnterResolve_eq_none s hf]; rfl
  | some turn => rw [handleEnterResolve_eq_some s turn hf]; rfl

theorem handleEnterResolve_readyCountries (s : EngineState) :
    (handleEnterResolve s).readyCountries = addAll s.readyCountries s.countries := by
  cases hf : findTurn (enterResolveSetup s) s.currentTurnId with
  | none => rw [handleEnterResolve_eq_none s hf]; rfl
  | some turn => rw [handleEnterResolve_eq_some s turn hf]; rfl

theorem handleEnterResolve_turns (s : EngineState) :
    (handleEnterResolve s).turns =
      s.turns.map (fun t => if t.id == s.currentTurnId
        then { t with phase := Phase.resolve, phaseEndsAt := none } else t) := by
  cases hf : findTurn (enterResolveSetup s) s.currentTurnId with
  | none => rw [handleEnterResolve_eq_none s hf]; rfl
  | some turn => rw [handleEnterResolve_eq_some s turn hf]; rfl

/-! ### `Set.add` over all countries -/

theorem addAll_mono : ∀ (cs rs : List String) {c : String}, c ∈ rs → c ∈ addAll rs cs := by
  intro cs
  induction cs with
  | nil => intro rs c h; exact h
  | cons a t ih =>
    intro rs c h
    have h1 : addAll rs (a :: t) = addAll (if a ∈ rs then rs else rs ++ [a]) t := rfl
    rw [h1]
    apply ih
    by_cases ha : a ∈ rs
    · rw [if_pos ha]; exact h
    · rw [if_neg ha]; exact List.mem_append_left _ h

theorem addAll_mem : ∀ (cs rs : List String) {c : String}, c ∈ cs → c ∈ addAll rs cs := by
  intro cs
  induction cs with
  | nil => intro rs c h; simp at h
  | cons a t ih =>
    intro rs c h
    have h1 : addAll rs (a :: t) = addAll (if a ∈ rs then rs else rs ++ [a]) t := rfl
    rw [h1]
    rcases List.mem_cons.mp h with rfl | h
    · apply addAll_mono
      by_cases ha : c ∈ rs
      · rw [if_pos ha]; exact ha
      · rw [if_neg ha]; exact List.mem_append_right _ (List.mem_singleton_self _)
    · exact ih _ h

/-! ## Concrete fixtures for counterexamples and witnesses -/

def fixTurn : Turn :=
  { id := "T1", turnNumber := 1, phase := Phase.planning, phaseEndsAt := none,
    committedAt := none, seed := "s" }

def fixProvince : Province :=
  { id := "P", name := "P", ownerCountryId := none, contested := false }

def claimOrder (oid : Nat) (cid : String) : Order :=
  { id := oid, turnId := "T1", countryId := cid, type := OrderType.START_COLONIZATION,
    provinceId := "P", targetProvinceId := none, status := OrderStatus.planned }

def buildOrder : Order :=
  { id := 9, turnId := "T1", countryId := "c1", type := OrderType.BUILD_FACTORY,
    provinceId := "P", targetProvinceId := none, status := OrderStatus.planned }

def fixState (os : List Order) : EngineState :=
  { turns := [fixTurn], orders := os, provinces := [fixProvince], battles := [],
    countries := ["c1", "c2"], currentTurnId := "T1", currentTurnNumber := 1,
    currentPhase := Phase.planning, phaseEndsAt := none, readyCountries := [],
    needsNewTurn := false }

def fixInput : SubmitOrderInput :=
  { type := OrderType.START_COLONIZATION, provinceId := "P", provinceName := none,
    targetProvinceId := none }

/-! ## Claim C2 -/

/-- C2 (amended): after the resolve phase runs for the current turn,
every `START_COLONIZATION` order of that turn has status `applied` or
`rejected`.  (Orders of other types are untouched by resolution; see
`C2_counterexample`.) -/
theorem C2_theorem (s : EngineState) (turn : Turn)
    (hturn : findTurn (enterResolveSetup s) s.currentTurnId = some turn) :
    ∀ o2 ∈ (handleEnterResolve s).orders,
      o2.turnId = s.currentTurnId → o2.type = OrderType.START_COLONIZATION →
      o2.status = OrderStatus.applied ∨ o2.status = OrderStatus.rejected := by
  rw [handleEnterResolve_eq_some s turn hturn]
  intro o2 hmem ht hty
  dsimp only at hmem
  rcases List.mem_map.mp hmem with ⟨o, ho, rfl⟩
  rw [foldWriteOrder_eq] at ht hty ⊢
  dsimp only at ht hty ⊢
  have hoc : o ∈ claimsOf s := List.mem_filter.mpr ⟨ho, by simp [ht, hty]⟩
  have hpk : o.provinceId ∈ groupKeys (claimsOf s) := groupKeys_mem.mpr ⟨o, hoc, rfl⟩
  have hgp := mem_groupByProvince hpk
  have homem : o ∈ (claimsOf s).filter (fun x => x.provinceId == o.provinceId) :=
    List.mem_filter.mpr ⟨hoc, by simp⟩
  exact foldStatus_AR_of_mem hgp
    (mem_groupIds_of_mem
      (g := (o.provinceId, (claimsOf s).filter (fun x => x.provinceId == o.provinceId)))
      homem) o.status

/-- C2 counterexample: a `BUILD_FACTORY` order active at resolve entry is
still `planned` after the resolve phase completes. -/
theorem C2_counterexample :
    (handleEnterResolve (fixState [buildOrder])).orders = [buildOrder] ∧
      buildOrder.status = OrderStatus.planned := by
  constructor
  · decide
  · rfl

theorem C2_witness :
    ({ claimOrder 1 "c1" with status := OrderStatus.applied } : Order).status =
        OrderStatus.applied ∨
      ({ claimOrder 1 "c1" with status := OrderStatus.applied } : Order).status =
        OrderStatus.rejected :=
  C2_theorem (fixState [claimOrder 1 "c1"])
    { fixTurn with phase := Phase.resolve, phaseEndsAt := none } rfl
    { claimOrder 1 "c1" with status := OrderStatus.applied } (by decide) rfl rfl

/-! ## Claim C3 -/

/-- C3: `submitOrder` during `resolve` or `commit` fails with
`PhaseViolation`.  The guard throws before any database write, so the
returned `Except.error` carries no successor state: the ledger, the
provinces and their contested flags are untouched. -/
theorem C3_theorem (s : EngineState) (countryId : String) (input : SubmitOrderInput)
    (newId : Nat) (h : s.currentPhase = Phase.resolve ∨ s.currentPhase = Phase.commit) :
    submitOrder s countryId input newId = Except.error SubmitError.PhaseViolation := by
  have hne : s.currentPhase ≠ Phase.planning := by
    rcases h with h | h <;> rw [h] <;> intro hc <;> cases hc
  unfold submitOrder
  rw [if_pos hne]

theorem C3_witness :
    submitOrder { fixState [] with currentPhase := Phase.resolve } "c1" fixInput 1 =
      Except.error SubmitError.PhaseViolation :=
  C3_theorem _ _ _ _ (Or.inl rfl)

/-! ## Claim C4 -/

/-- The (turn, country, type, target) key of `submitOrder`'s
delete-then-insert replacement. -/
def orderKey (s : EngineState) (countryId : String) (input : SubmitOrderInput)
    (o : Order) : Bool :=
  o.turnId == s.currentTurnId && o.countryId == countryId &&
    o.type == input.type && o.provinceId == input.provinceId

/-- C4: a successful `submitOrder` leaves exactly one active order for
its (country, type, target) key — the newly created row. -/
theorem C4_theorem (s : EngineState) (countryId : String) (input : SubmitOrderInput)
    (newId : Nat) (s' : EngineState)
    (h : submitOrder s countryId input newId = Except.ok s') :
    s'.orders.filter (orderKey s countryId input) =
      [{ id := newId, turnId := s.currentTurnId, countryId := countryId, type := input.type,
         provinceId := input.provinceId, targetProvinceId := input.targetProvinceId,
         status := OrderStatus.planned }] := by
  unfold submitOrder at h
  by_cases hp : s.currentPhase ≠ Phase.planning
  · rw [if_pos hp] at h; cases h
  · rw [if_neg hp] at h
    injection h with h2
    subst h2
    dsimp only
    rw [ensureProvince_orders, ensureProvince_currentTurnId, refreshContestedFlags_orders]
    dsimp only
    rw [List.filter_append, List.filter_filter]
    have hfalse :
        (s.orders.filter fun a =>
          orderKey s countryId input a &&
            !(a.turnId == s.currentTurnId && a.countryId == countryId &&
              a.type == input.type && a.provinceId == input.provinceId)) = [] := by
      have hfun : (fun a : Order =>
          orderKey s countryId input a &&
            !(a.turnId == s.currentTurnId && a.countryId == countryId &&
              a.type == input.type && a.provinceId == input.provinceId)) =
          fun _ : Order => false :=
        funext fun a => Bool.and_not_self _
      rw [hfun]
      exact List.filter_false _
    rw [hfalse, List.nil_append]
    simp [orderKey]

def fixSubmitRes : EngineState :=
  (submitOrder (fixState []) "c1" fixInput 7).toOption.getD (fixState [])

theorem C4_witness :
    fixSubmitRes.orders.filter (orderKey (fixState []) "c1" fixInput) =
      [{ id := 7, turnId := "T1", countryId := "c1", type := OrderType.START_COLONIZATION,
         provinceId := "P", targetProvinceId := none, status := OrderStatus.planned }] :=
  C4_theorem (fixState []) "c1" fixInput 7 fixSubmitRes (by rfl)

/-! ## Claim C8 -/

/-- C8: on entry to resolve the engine clears the published deadline,
persists a null deadline on the current Turn row, and stamps every known
country into the ready set. -/
theorem C8_theorem (s : EngineState) :
    (handleEnterResolve s).phaseEndsAt = none ∧
    (∀ c ∈ s.countries, c ∈ (handleEnterResolve s).readyCountries) ∧
    (∀ t ∈ (handleEnterResolve s).turns, t.id = s.currentTurnId → t.phaseEndsAt = none) := by
  refine ⟨handleEnterResolve_phaseEndsAt s, ?_, ?_⟩
  · intro c hc
    rw [handleEnterResolve_readyCountries]
    exact addAll_mem _ _ hc
  · intro t ht hid
    rw [handleEnterResolve_turns] at ht
    rcases List.mem_map.mp ht with ⟨t0, _, rfl⟩
    by_cases h : (t0.id == s.currentTurnId) = true
    · rw [if_pos h] at hid ⊢
    · rw [if_neg h] at hid ⊢
      exact absurd (by simp [hid]) h

theorem C8_witness :
    (handleEnterResolve (fixState [])).phaseEndsAt = none ∧
      ("c1" ∈ (handleEnterResolve (fixState [])).readyCountries ∧
       "c2" ∈ (handleEnterResolve (fixState [])).readyCountries) ∧
      (∀ t ∈ (handleEnterResolve (fixState [])).turns, t.id = "T1" → t.phaseEndsAt = none) :=
  ⟨(C8_theorem (fixState [])).1,
   ⟨(C8_theorem (fixState [])).2.1 "c1" (by decide),
    (C8_theorem (fixState [])).2.1 "c2" (by decide)⟩,
   (C8_theorem (fixState [])).2.2⟩

/-! ## Claim C5 -/

theorem provVal_single_claim (seed p : String) (o : Order) {i : String} (hi : i = p)
    (v : Option String × Bool) :
    provVal seed (p, [o]) i v = (some o.countryId, false) := by
  unfold provVal
  rw [show (rankOrders seed p [o]).head? = some (o, scoreOf seed p o) from rfl]
  dsimp only
  rw [if_pos hi]

theorem writeStatus_single_claim (seed p : String) (o : Order) {i : Nat} (hi : i = o.id)
    (st : OrderStatus) : writeStatus seed (p, [o]) i st = OrderStatus.applied := by
  unfold writeStatus
  rw [show rankOrders seed p [o] = [(o, scoreOf seed p o)] from rfl]
  dsimp only
  rw [if_neg (by simp), if_pos hi]

theorem groupBattles_single_claim (seed tid p : String) (o : Order) :
    groupBattles seed tid (p, [o]) = [] := rfl

/-- C5: a target with exactly one claim order for the current turn is won
uncontested: its sole claimant becomes the owner, the order is applied,
`is_contested` ends false, and no ResolutionRecord is appended for it. -/
theorem C5_theorem (s : EngineState) (turn : Turn) (o : Order) (p : String)
    (hturn : findTurn (enterResolveSetup s) s.currentTurnId = some turn)
    (hnd : (s.orders.map Order.id).Nodup)
    (hsole : (claimsOf s).filter (fun x => x.provinceId == p) = [o]) :
    (∀ pr ∈ (handleEnterResolve s).provinces, pr.id = p →
        pr.ownerCountryId = some o.countryId ∧ pr.contested = false) ∧
    (∀ o2 ∈ (handleEnterResolve s).orders, o2.id = o.id →
        o2.status = OrderStatus.applied) ∧
    ((handleEnterResolve s).battles.filter (fun b => b.provinceId == p) =
      s.battles.filter (fun b => b.provinceId == p)) := by
  have hof : o ∈ (claimsOf s).filter (fun x => x.provinceId == p) := by
    rw [hsole]; exact List.mem_singleton_self o
  rcases List.mem_filter.mp hof with ⟨hoc, hopid'⟩
  have hopid : o.provinceId = p := by simpa using hopid'
  have hp : p ∈ groupKeys (claimsOf s) := groupKeys_mem.mpr ⟨o, hoc, hopid⟩
  obtain ⟨l1, l2, hsplit, h1, h2⟩ := split_groups hp
  have hgin : ∀ g', g' ∈ l1 ∨ g' ∈ l2 → g' ∈ groupByProvince (claimsOf s) := by
    intro g' hg'
    rw [hsplit]
    rcases hg' with hg' | hg'
    · exact List.mem_append_left _ hg'
    · exact List.mem_append_right _ (List.mem_cons_of_mem _ hg')
  have hexcl : ∀ g', g' ∈ l1 ∨ g' ∈ l2 → o.id ∉ groupIds turn.seed g' := by
    intro g' hg'
    have hne : g'.1 ≠ p := by
      rcases hg' with hg' | hg'
      · exact h1 g' hg'
      · exact h2 g' hg'
    exact not_mem_other_group hnd hoc (hgin g' hg') (by rw [hopid]; exact hne)
  rw [handleEnterResolve_eq_some s turn hturn]
  dsimp only
  refine ⟨?_, ?_, ?_⟩
  · intro pr hmem hid
    rcases List.mem_map.mp hmem with ⟨pr0, _, rfl⟩
    rw [foldWriteProv_eq] at hid ⊢
    dsimp only at hid ⊢
    rw [hsplit, hsole]
    rw [foldProvVal_single _ (fun g' hg' => hid ▸ Ne.symm (h1 g' hg'))
      (fun g' hg' => hid ▸ Ne.symm (h2 g' hg'))]
    rw [provVal_single_claim turn.seed p o hid]
    exact ⟨rfl, rfl⟩
  · intro o2 hmem hid
    rcases List.mem_map.mp hmem with ⟨o0, _, rfl⟩
    rw [foldWriteOrder_eq] at hid ⊢
    dsimp only at hid ⊢
    rw [hsplit, hsole]
    rw [foldStatus_single o0.status
      (fun g' hg' => hid ▸ hexcl g' (Or.inl hg'))
      (fun g' hg' => hid ▸ hexcl g' (Or.inr hg'))]
    exact writeStatus_single_claim turn.seed p o hid o0.status
  · rw [List.filter_append, hsplit, hsole,
      foldBattles_filter_single (g := (p, [o])) rfl h1 h2, groupBattles_single_claim,
      List.append_nil]

def fixResolvedTurn : Turn := { fixTurn with phase := Phase.resolve, phaseEndsAt := none }

theorem C5_witness :
    (({ id := "P", name := "P", ownerCountryId := some "c1", contested := false } :
          Province).ownerCountryId = some "c1" ∧
      ({ id := "P", name := "P", ownerCountryId := some "c1", contested := false } :
          Province).contested = false) ∧
    ({ claimOrder 1 "c1" with status := OrderStatus.applied } : Order).status =
        OrderStatus.applied ∧
    ((handleEnterResolve (fixState [claimOrder 1 "c1"])).battles.filter
        (fun b => b.provinceId == "P") =
      (fixState [claimOrder 1 "c1"]).battles.filter (fun b => b.provinceId == "P")) :=
  ⟨(C5_theorem (fixState [claimOrder 1 "c1"]) fixResolvedTurn (claimOrder 1 "c1") "P"
      rfl (by decide) (by decide)).1
      { id := "P", name := "P", ownerCountryId := some "c1", contested := false }
      (by decide) rfl,
   (C5_theorem (fixState [claimOrder 1 "c1"]) fixResolvedTurn (claimOrder 1 "c1") "P"
      rfl (by decide) (by decide)).2.1
      { claimOrder 1 "c1" with status := OrderStatus.applied } (by decide) rfl,
   (C5_theorem (fixState [claimOrder 1 "c1"]) fixResolvedTurn (claimOrder 1 "c1") "P"
      rfl (by decide) (by decide)).2.2⟩

/-! ## Claim C6 -/

theorem writeStatus_rank {seed : String} {g : String × List Order} {w second : Order × Nat}
    {rest : List (Order × Nat)} (hrank : rankOrders seed g.1 g.2 = w :: second :: rest)
    (oid : Nat) (st : OrderStatus) :
    writeStatus seed g oid st =
      if oid ∈ (second :: rest).map (fun e => e.1.id) then OrderStatus.rejected
      else if oid = w.1.id then OrderStatus.applied else st := by
  unfold writeStatus
  rw [hrank]

theorem provVal_rank {seed : String} {g : String × List Order} {w : Order × Nat}
    {tail : List (Order × Nat)} (hrank : rankOrders seed g.1 g.2 = w :: tail)
    {i : String} (hi : i = g.1) (v : Option String × Bool) :
    provVal seed g i v = (some w.1.countryId, false) := by
  unfold provVal
  rw [hrank, List.head?_cons]
  dsimp only
  rw [if_pos hi]

theorem groupBattles_rank {seed tid : String} {g : String × List Order}
    {w second : Order × Nat} {rest : List (Order × Nat)}
    (hrank : rankOrders seed g.1 g.2 = w :: second :: rest) :
    groupBattles seed tid g =
      [{ turnId := tid, provinceId := g.1, attackerId := w.1.countryId,
         defenderId := some second.1.countryId, winnerCountryId := some w.1.countryId,
         summary := "Провинция " ++ g.1 ++ ": победила страна " ++ w.1.countryId }] := by
  unfold groupBattles
  rw [hrank]

/-- C6: for a target with two or more contenders, the head of the
ranking is applied and takes ownership with the contested flag cleared,
every lower-ranked contender is rejected, and exactly one
ResolutionRecord is appended for the target, naming the winner as
attacker and the second-ranked contender as defender. -/
theorem C6_theorem (s : EngineState) (turn : Turn) (p : String)
    (w second : Order × Nat) (restRanked : List (Order × Nat))
    (hturn : findTurn (enterResolveSetup s) s.currentTurnId = some turn)
    (hnd : (s.orders.map Order.id).Nodup)
    (hrank : rankOrders turn.seed p ((claimsOf s).filter (fun x => x.provinceId == p)) =
      w :: second :: restRanked) :
    (∀ pr ∈ (handleEnterResolve s).provinces, pr.id = p →
        pr.ownerCountryId = some w.1.countryId ∧ pr.contested = false) ∧
    (∀ o2 ∈ (handleEnterResolve s).orders, o2.id = w.1.id →
        o2.status = OrderStatus.applied) ∧
    (∀ o2 ∈ (handleEnterResolve s).orders,
        o2.id ∈ (second :: restRanked).map (fun e => e.1.id) →
        o2.status = OrderStatus.rejected) ∧
    ((handleEnterResolve s).battles.filter (fun b => b.provinceId == p) =
      s.battles.filter (fun b => b.provinceId == p) ++
        [{ turnId := s.currentTurnId, provinceId := p, attackerId := w.1.countryId,
           defenderId := some second.1.countryId, winnerCountryId := some w.1.countryId,
           summary := "Провинция " ++ p ++ ": победила страна " ++ w.1.countryId }]) := by
  have hmne : (claimsOf s).filter (fun x => x.provinceId == p) ≠ [] := by
    intro h0
    have hl := congrArg List.length hrank
    rw [rank_length, h0] at hl
    simp at hl
  obtain ⟨o0, ho0⟩ := List.exists_mem_of_ne_nil _ hmne
  have hp : p ∈ groupKeys (claimsOf s) :=
    groupKeys_mem.mpr ⟨o0, (List.mem_filter.mp ho0).1,
      by simpa using (List.mem_filter.mp ho0).2⟩
  obtain ⟨l1, l2, hsplit, h1, h2⟩ := split_groups hp
  have hgin : ∀ g', g' ∈ l1 ∨ g' ∈ l2 → g' ∈ groupByProvince (claimsOf s) := by
    intro g' hg'
    rw [hsplit]
    rcases hg' with hg' | hg'
    · exact List.mem_append_left _ hg'
    · exact List.mem_append_right _ (List.mem_cons_of_mem _ hg')
  have hexcl : ∀ oc : Order, oc ∈ (claimsOf s).filter (fun x => x.provinceId == p) →
      ∀ g', (g' ∈ l1 ∨ g' ∈ l2) → oc.id ∉ groupIds turn.seed g' := by
    intro oc hocm g' hg'
    rcases List.mem_filter.mp hocm with ⟨hocc, hocp'⟩
    have hocp : oc.provinceId = p := by simpa using hocp'
    have hne : g'.1 ≠ p := by
      rcases hg' with hg' | hg'
      · exact h1 g' hg'
      · exact h2 g' hg'
    exact not_mem_other_group hnd hocc (hgin g' hg') (by rw [hocp]; exact hne)
  have hw1 : w.1 ∈ (claimsOf s).filter (fun x => x.provinceId == p) :=
    of_mem_rank (l := (claimsOf s).filter (fun x => x.provinceId == p))
      (by rw [hrank]; exact List.mem_cons_self _ _)
  have hloser : ∀ e ∈ (second :: restRanked),
      e.1 ∈ (claimsOf s).filter (fun x => x.provinceId == p) := by
    intro e he
    exact of_mem_rank (l := (claimsOf s).filter (fun x => x.provinceId == p))
      (by rw [hrank]; exact List.mem_cons_of_mem _ he)
  have hids_nodup : ((w :: second :: restRanked).map (fun e => e.1.id)).Nodup := by
    have hmn : (((claimsOf s).filter (fun x => x.provinceId == p)).map Order.id).Nodup :=
      List.Nodup.sublist (List.Sublist.map Order.id (List.filter_sublist _))
        (claims_ids_nodup hnd)
    have hperm := groupIds_perm turn.seed
      (p, (claimsOf s).filter (fun x => x.provinceId == p))
    have hgn := hperm.nodup_iff.mpr hmn
    rw [show groupIds turn.seed (p, (claimsOf s).filter (fun x => x.provinceId == p)) =
      (rankOrders turn.seed p ((claimsOf s).filter (fun x => x.provinceId == p))).map
        (fun e => e.1.id) from rfl, hrank] at hgn
    exact hgn
  have hw_notin : w.1.id ∉ (second :: restRanked).map (fun e => e.1.id) := by
    rw [List.map_cons] at hids_nodup
    exact (List.nodup_cons.mp hids_nodup).1
  rw [handleEnterResolve_eq_some s turn hturn]
  dsimp only
  refine ⟨?_, ?_, ?_, ?_⟩
  · intro pr hmem hid
    rcases List.mem_map.mp hmem with ⟨pr0, _, rfl⟩
    rw [foldWriteProv_eq] at hid ⊢
    dsimp only at hid ⊢
    rw [hsplit]
    rw [foldProvVal_single _ (fun g' hg' => hid ▸ Ne.symm (h1 g' hg'))
      (fun g' hg' => hid ▸ Ne.symm (h2 g' hg'))]
    rw [provVal_rank (g := (p, (claimsOf s).filter (fun x => x.provinceId == p))) hrank hid]
    exact ⟨rfl, rfl⟩
  · intro o2 hmem hid
    rcases List.mem_map.mp hmem with ⟨oR, _, rfl⟩
    rw [foldWriteOrder_eq] at hid ⊢
    dsimp only at hid ⊢
    rw [hsplit]
    rw [foldStatus_single oR.status
      (fun g' hg' => hid ▸ hexcl w.1 hw1 g' (Or.inl hg'))
      (fun g' hg' => hid ▸ hexcl w.1 hw1 g' (Or.inr hg'))]
    rw [writeStatus_rank (g := (p, (claimsOf s).filter (fun x => x.provinceId == p))) hrank]
    rw [if_neg (hid ▸ hw_notin), if_pos hid]
  · intro o2 hmem hid
    rcases List.mem_map.mp hmem with ⟨oR, _, rfl⟩
    rw [foldWriteOrder_eq] at hid ⊢
    dsimp only at hid ⊢
    rcases List.mem_map.mp hid with ⟨e, he, heid⟩
    rw [hsplit]
    rw [foldStatus_single oR.status
      (fun g' hg' => heid ▸ hexcl e.1 (hloser e he) g' (Or.inl hg'))
      (fun g' hg' => heid ▸ hexcl e.1 (hloser e he) g' (Or.inr hg'))]
    rw [writeStatus_rank (g := (p, (claimsOf s).filter (fun x => x.provinceId == p))) hrank]
    rw [if_pos hid]
  · rw [List.filter_append, hsplit,
      foldBattles_filter_single
        (g := (p, (claimsOf s).filter (fun x => x.provinceId == p))) rfl h1 h2,
      groupBattles_rank
        (g := (p, (claimsOf s).filter (fun x => x.provinceId == p))) hrank]

theorem C6_witness :
    (({ id := "P", name := "P", ownerCountryId := some "c1", contested := false } :
          Province).ownerCountryId = some "c1" ∧
      ({ id := "P", name := "P", ownerCountryId := some "c1", contested := false } :
          Province).contested = false) ∧
    ({ claimOrder 1 "c1" with status := OrderStatus.applied } : Order).status =
        OrderStatus.applied ∧
    ({ claimOrder 2 "c2" with status := OrderStatus.rejected } : Order).status =
        OrderStatus.rejected ∧
    ((handleEnterResolve (fixState [claimOrder 1 "c1", claimOrder 2 "c2"])).battles.filter
        (fun b => b.provinceId == "P") =
      (fixState [claimOrder 1 "c1", claimOrder 2 "c2"]).battles.filter
        (fun b => b.provinceId == "P") ++
        [{ turnId := "T1", provinceId := "P", attackerId := "c1",
           defenderId := some "c2", winnerCountryId := some "c1",
           summary := "Провинция " ++ "P" ++ ": победила страна " ++ "c1" }]) :=
  ⟨(C6_theorem (fixState [claimOrder 1 "c1", claimOrder 2 "c2"]) fixResolvedTurn "P"
      (claimOrder 1 "c1", 1785388604) (claimOrder 2 "c2", 182876594) []
      rfl (by decide) (by decide)).1
      { id := "P", name := "P", ownerCountryId := some "c1", contested := false }
      (by decide) rfl,
   (C6_theorem (fixState [claimOrder 1 "c1", claimOrder 2 "c2"]) fixResolvedTurn "P"
      (claimOrder 1 "c1", 1785388604) (claimOrder 2 "c2", 182876594) []
      rfl (by decide) (by decide)).2.1
      { claimOrder 1 "c1" with status := OrderStatus.applied } (by decide) rfl,
   (C6_theorem (fixState [claimOrder 1 "c1", claimOrder 2 "c2"]) fixResolvedTurn "P"
      (claimOrder 1 "c1", 1785388604) (claimOrder 2 "c2", 182876594) []
      rfl (by decide) (by decide)).2.2.1
      { claimOrder 2 "c2" with status := OrderStatus.rejected } (by decide) (by decide),
   (C6_theorem (fixState [claimOrder 1 "c1", claimOrder 2 "c2"]) fixResolvedTurn "P"
      (claimOrder 1 "c1", 1785388604) (claimOrder 2 "c2", 182876594) []
      rfl (by decide) (by decide)).2.2.2⟩

/-! ## Claim C7: supporting lemmas -/

theorem writeStatus_const_or_id (seed : String) (g : String × List Order) (oid : Nat) :
    (∀ st st', writeStatus seed g oid st = writeStatus seed g oid st') ∨
      (∀ st, writeStatus seed g oid st = st) := by
  unfold writeStatus
  cases rankOrders seed g.1 g.2 with
  | nil => right; intro st; rfl
  | cons w rest =>
    dsimp only
    by_cases hm : oid ∈ rest.map (fun e => e.1.id)
    · left; intro st st'; rw [if_pos hm, if_pos hm]
    · by_cases he : oid = w.1.id
      · left; intro st st'; rw [if_neg hm, if_pos he, if_neg hm, if_pos he]
      · right; intro st; rw [if_neg hm, if_neg he]

theorem foldStatus_const_or_id (seed : String) (oid : Nat) :
    ∀ gs : List (String × List Order),
      (∀ st st', foldStatus seed gs oid st = foldStatus seed gs oid st') ∨
        (∀ st, foldStatus seed gs oid st = st) := by
  intro gs
  induction gs with
  | nil => right; intro st; rfl
  | cons g gs ih =>
    have hstep : ∀ st, foldStatus seed (g :: gs) oid st =
        foldStatus seed gs oid (writeStatus seed g oid st) := fun st => rfl
    rcases ih with hC | hI
    · left; intro st st'; rw [hstep, hstep]; exact hC _ _
    · rcases writeStatus_const_or_id seed g oid with hwC | hwI
      · left; intro st st'; rw [hstep, hstep, hI, hI]; exact hwC _ _
      · right; intro st; rw [hstep, hI, hwI]

theorem foldStatus_idem (seed : String) (gs : List (String × List Order)) (oid : Nat)
    (st : OrderStatus) :
    foldStatus seed gs oid (foldStatus seed gs oid st) = foldStatus seed gs oid st := by
  rcases foldStatus_const_or_id seed oid gs with hC | hI
  · exact hC _ _
  · rw [hI, hI]

theorem provVal_const_or_id (seed : String) (g : String × List Order) (i : String) :
    (∀ v v', provVal seed g i v = provVal seed g i v') ∨
      (∀ v, provVal seed g i v = v) := by
  unfold provVal
  cases (rankOrders seed g.1 g.2).head? with
  | none => right; intro v; rfl
  | some w =>
    dsimp only
    by_cases hi : i = g.1
    · left; intro v v'; rw [if_pos hi, if_pos hi]
    · right; intro v; rw [if_neg hi]

theorem foldProvVal_const_or_id (seed : String) (i : String) :
    ∀ gs : List (String × List Order),
      (∀ v v', foldProvVal seed gs i v = foldProvVal seed gs i v') ∨
        (∀ v, foldProvVal seed gs i v = v) := by
  intro gs
  induction gs with
  | nil => right; intro v; rfl
  | cons g gs ih =>
    have hstep : ∀ v, foldProvVal seed (g :: gs) i v =
        foldProvVal seed gs i (provVal seed g i v) := fun v => rfl
    rcases ih with hC | hI
    · left; intro v v'; rw [hstep, hstep]; exact hC _ _
    · rcases provVal_const_or_id seed g i with hwC | hwI
      · left; intro v v'; rw [hstep, hstep, hI, hI]; exact hwC _ _
      · right; intro v; rw [hstep, hI, hwI]

theorem foldProvVal_idem (seed : String) (gs : List (String × List Order)) (i : String)
    (v : Option String × Bool) :
    foldProvVal seed gs i (foldProvVal seed gs i v) = foldProvVal seed gs i v := by
  rcases foldProvVal_const_or_id seed i gs with hC | hI
  · exact hC _ _
  · rw [hI, hI]

/-! ### Grouping and ranking are insensitive to status-only rewrites -/

theorem groupKeysAux_map (f : Order → Order) (hf : ∀ o, (f o).provinceId = o.provinceId) :
    ∀ (l : List Order) (ks : List String),
      (l.map f).foldl (fun ks o => insertKey ks o.provinceId) ks =
        l.foldl (fun ks o => insertKey ks o.provinceId) ks := by
  intro l
  induction l with
  | nil => intro ks; rfl
  | cons a t ih =>
    intro ks
    rw [List.map_cons, List.foldl_cons, List.foldl_cons, hf a]
    exact ih _

theorem groupKeys_map (f : Order → Order) (hf : ∀ o, (f o).provinceId = o.provinceId)
    (l : List Order) : groupKeys (l.map f) = groupKeys l :=
  groupKeysAux_map f hf l []

theorem orderedInsert_map (f : Order → Order) :
    ∀ (l : List (Order × Nat)) (x : Order × Nat),
      List.orderedInsert (fun a b : Order × Nat => b.2 ≤ a.2) (f x.1, x.2)
          (l.map (fun e => (f e.1, e.2))) =
        (List.orderedInsert (fun a b : Order × Nat => b.2 ≤ a.2) x l).map
          (fun e => (f e.1, e.2)) := by
  intro l
  induction l with
  | nil => intro x; rfl
  | cons a t ih =>
    intro x
    rw [List.map_cons, List.orderedInsert, List.orderedInsert]
    by_cases h : (a.2 : Nat) ≤ x.2
    · rw [if_pos h, if_pos h, List.map_cons, List.map_cons]
    · rw [if_neg h, if_neg h, List.map_cons, ih]

theorem insertionSort_map (f : Order → Order) :
    ∀ l : List (Order × Nat),
      List.insertionSort (fun a b : Order × Nat => b.2 ≤ a.2)
          (l.map (fun e => (f e.1, e.2))) =
        (List.insertionSort (fun a b : Order × Nat => b.2 ≤ a.2) l).map
          (fun e => (f e.1, e.2)) := by
  intro l
  induction l with
  | nil => rfl
  | cons a t ih =>
    rw [List.map_cons, List.insertionSort, List.insertionSort, ih]
    exact orderedInsert_map f _ a

theorem rank_map (seed p : String) (f : Order → Order)
    (hfc : ∀ o, (f o).countryId = o.countryId) (l : List Order) :
    rankOrders seed p (l.map f) =
      (rankOrders seed p l).map (fun e => (f e.1, e.2)) := by
  unfold rankOrders
  rw [List.map_map]
  rw [show ((fun o => (o, scoreOf seed p o)) ∘ f) =
      ((fun e : Order × Nat => (f e.1, e.2)) ∘ (fun o => (o, scoreOf seed p o))) from
    funext fun o => by simp [Function.comp, scoreOf, hfc o]]
  rw [← List.map_map]
  exact insertionSort_map f _

theorem writeStatus_map (seed p : String) (f : Order → Order)
    (hfc : ∀ o, (f o).countryId = o.countryId) (hfi : ∀ o, (f o).id = o.id)
    (members : List Order) (oid : Nat) (st : OrderStatus) :
    writeStatus seed (p, members.map f) oid st = writeStatus seed (p, members) oid st := by
  unfold writeStatus
  rw [show rankOrders seed (p, members.map f).1 (p, members.map f).2 =
      (rankOrders seed p members).map (fun e => (f e.1, e.2)) from rank_map seed p f hfc members]
  cases rankOrders seed p members with
  | nil => rfl
  | cons w rest =>
    rw [List.map_cons]
    dsimp only
    have hids : (rest.map (fun e : Order × Nat => (f e.1, e.2))).map (fun e => e.1.id) =
        rest.map (fun e => e.1.id) := by
      rw [List.map_map]
      exact List.map_congr_left fun e _ => hfi e.1
    rw [hids, hfi w.1]

theorem provVal_map (seed p : String) (f : Order → Order)
    (hfc : ∀ o, (f o).countryId = o.countryId) (members : List Order) (i : String)
    (v : Option String × Bool) :
    provVal seed (p, members.map f) i v = provVal seed (p, members) i v := by
  unfold provVal
  rw [show rankOrders seed (p, members.map f).1 (p, members.map f).2 =
      (rankOrders seed p members).map (fun e => (f e.1, e.2)) from rank_map seed p f hfc members]
  cases rankOrders seed p members with
  | nil => rfl
  | cons w rest =>
    rw [List.map_cons, List.head?_cons, List.head?_cons]
    dsimp only
    rw [hfc w.1]

theorem foldStatus_groups_map (seed : String) (f : Order → Order)
    (hfc : ∀ o, (f o).countryId = o.countryId) (hfi : ∀ o, (f o).id = o.id)
    (l : List Order) :
    ∀ (ks : List String) (oid : Nat) (st : OrderStatus),
      foldStatus seed
          (ks.map (fun p => (p, (l.filter (fun o => o.provinceId == p)).map f))) oid st =
        foldStatus seed (ks.map (fun p => (p, l.filter (fun o => o.provinceId == p)))) oid st := by
  intro ks
  induction ks with
  | nil => intro oid st; rfl
  | cons p ks ih =>
    intro oid st
    rw [List.map_cons, List.map_cons]
    have h1 : foldStatus seed
        ((p, (l.filter (fun o => o.provinceId == p)).map f) ::
          ks.map (fun p => (p, (l.filter (fun o => o.provinceId == p)).map f))) oid st =
        foldStatus seed (ks.map (fun p => (p, (l.filter (fun o => o.provinceId == p)).map f)))
          oid (writeStatus seed (p, (l.filter (fun o => o.provinceId == p)).map f) oid st) :=
      rfl
    have h2 : foldStatus seed
        ((p, l.filter (fun o => o.provinceId == p)) ::
          ks.map (fun p => (p, l.filter (fun o => o.provinceId == p)))) oid st =
        foldStatus seed (ks.map (fun p => (p, l.filter (fun o => o.provinceId == p))))
          oid (writeStatus seed (p, l.filter (fun o => o.provinceId == p)) oid st) := rfl
    rw [h1, h2, writeStatus_map seed p f hfc hfi]
    exact ih _ _

theorem foldProvVal_groups_map (seed : String) (f : Order → Order)
    (hfc : ∀ o, (f o).countryId = o.countryId) (l : List Order) :
    ∀ (ks : List String) (i : String) (v : Option String × Bool),
      foldProvVal seed
          (ks.map (fun p => (p, (l.filter (fun o => o.provinceId == p)).map f))) i v =
        foldProvVal seed (ks.map (fun p => (p, l.filter (fun o => o.provinceId == p)))) i v := by
  intro ks
  induction ks with
  | nil => intro i v; rfl
  | cons p ks ih =>
    intro i v
    rw [List.map_cons, List.map_cons]
    have h1 : foldProvVal seed
        ((p, (l.filter (fun o => o.provinceId == p)).map f) ::
          ks.map (fun p => (p, (l.filter (fun o => o.provinceId == p)).map f))) i v =
        foldProvVal seed (ks.map (fun p => (p, (l.filter (fun o => o.provinceId == p)).map f)))
          i (provVal seed (p, (l.filter (fun o => o.provinceId == p)).map f) i v) := rfl
    have h2 : foldProvVal seed
        ((p, l.filter (fun o => o.provinceId == p)) ::
          ks.map (fun p => (p, l.filter (fun o => o.provinceId == p)))) i v =
        foldProvVal seed (ks.map (fun p => (p, l.filter (fun o => o.provinceId == p))))
          i (provVal seed (p, l.filter (fun o => o.provinceId == p)) i v) := rfl
    rw [h1, h2, provVal_map seed p f hfc]
    exact ih _ _

/-! ### Projections of a completed resolve run -/

theorem handleEnterResolve_currentTurnId (s : EngineState) :
    (handleEnterResolve s).currentTurnId = s.currentTurnId := by
  cases hf : findTurn (enterResolveSetup s) s.currentTurnId with
  | none => rw [handleEnterResolve_eq_none s hf]; rfl
  | some turn => rw [handleEnterResolve_eq_some s turn hf]; rfl

theorem handleEnterResolve_orders (s : EngineState) (turn : Turn)
    (hturn : findTurn (enterResolveSetup s) s.currentTurnId = some turn) :
    (handleEnterResolve s).orders =
      s.orders.map (foldWriteOrder turn.seed (groupByProvince (claimsOf s))) := by
  rw [handleEnterResolve_eq_some s turn hturn]

theorem handleEnterResolve_provinces (s : EngineState) (turn : Turn)
    (hturn : findTurn (enterResolveSetup s) s.currentTurnId = some turn) :
    (handleEnterResolve s).provinces =
      s.provinces.map (foldWriteProv turn.seed (groupByProvince (claimsOf s))) := by
  rw [handleEnterResolve_eq_some s turn hturn]

theorem groupByProvince_map (f : Order → Order)
    (hfp : ∀ o, (f o).provinceId = o.provinceId) (l : List Order) :
    groupByProvince (l.map f) =
      (groupKeys l).map (fun p => (p, (l.filter (fun o => o.provinceId == p)).map f)) := by
  unfold groupByProvince
  rw [groupKeys_map f hfp l]
  apply List.map_congr_left
  intro p _
  rw [filter_map_comm f (fun o => o.provinceId == p) (fun o => by simp [hfp]) l]

theorem claimsOf_handleEnterResolve (s : EngineState) (turn : Turn)
    (hturn : findTurn (enterResolveSetup s) s.currentTurnId = some turn) :
    claimsOf (handleEnterResolve s) =
      (claimsOf s).map (foldWriteOrder turn.seed (groupByProvince (claimsOf s))) := by
  unfold claimsOf
  rw [handleEnterResolve_currentTurnId, handleEnterResolve_orders s turn hturn]
  exact filter_map_comm _ _ (fun o => by rw [foldWriteOrder_eq]) _

theorem findTurn_setup_eq (x : EngineState) :
    findTurn (enterResolveSetup x) x.currentTurnId =
      (x.turns.find? (fun t => t.id == x.currentTurnId)).map
        (fun t => if t.id == x.currentTurnId
          then { t with phase := Phase.resolve, phaseEndsAt := none } else t) := by
  unfold findTurn
  rw [show (enterResolveSetup x).turns = x.turns.map
      (fun t => if t.id == x.currentTurnId
        then { t with phase := Phase.resolve, phaseEndsAt := none } else t) from rfl]
  refine find?_map_comm _ _ ?_ _
  intro t
  by_cases h : (t.id == x.currentTurnId) = true
  · rw [if_pos h]
  · rw [if_neg h]

theorem resolveWrite_idem (tid : String) (t : Turn) :
    (if (if t.id == tid then { t with phase := Phase.resolve, phaseEndsAt := none }
          else t).id == tid
      then { (if t.id == tid then { t with phase := Phase.resolve, phaseEndsAt := none }
              else t) with phase := Phase.resolve, phaseEndsAt := none }
      else (if t.id == tid then { t with phase := Phase.resolve, phaseEndsAt := none }
            else t)) =
    (if t.id == tid then { t with phase := Phase.resolve, phaseEndsAt := none } else t) := by
  obtain ⟨i, n, ph, pe, ca, sd⟩ := t
  by_cases h : (i == tid) = true <;> simp [h]

theorem fwo_idem_general (seed : String) (gs gs2 : List (String × List Order))
    (hgs : ∀ oid st, foldStatus seed gs2 oid st = foldStatus seed gs oid st) (o : Order) :
    foldWriteOrder seed gs2 (foldWriteOrder seed gs o) = foldWriteOrder seed gs o := by
  rw [foldWriteOrder_eq seed gs o, foldWriteOrder_eq seed gs2]
  dsimp only
  rw [hgs, foldStatus_idem]

theorem fwp_idem_general (seed : String) (gs gs2 : List (String × List Order))
    (hgs : ∀ i v, foldProvVal seed gs2 i v = foldProvVal seed gs i v) (pr : Province) :
    foldWriteProv seed gs2 (foldWriteProv seed gs pr) = foldWriteProv seed gs pr := by
  rw [foldWriteProv_eq seed gs pr, foldWriteProv_eq seed gs2]
  dsimp only
  rw [hgs]
  rw [show ((foldProvVal seed gs pr.id (pr.ownerCountryId, pr.contested)).1,
      (foldProvVal seed gs pr.id (pr.ownerCountryId, pr.contested)).2) =
    foldProvVal seed gs pr.id (pr.ownerCountryId, pr.contested) from rfl]
  rw [foldProvVal_idem]

/-- C7: re-running resolution for the same turn against the ledger's
current contents is idempotent on Province and Order state. -/
theorem C7_theorem (s : EngineState) :
    (handleEnterResolve (handleEnterResolve s)).provinces =
        (handleEnterResolve s).provinces ∧
    (handleEnterResolve (handleEnterResolve s)).orders = (handleEnterResolve s).orders := by
  cases hf : findTurn (enterResolveSetup s) s.currentTurnId with
  | none =>
    have h1 := findTurn_setup_eq s
    rw [hf] at h1
    have hbase : s.turns.find? (fun t => t.id == s.currentTurnId) = none :=
      Option.map_eq_none'.mp h1.symm
    have hff : findTurn (enterResolveSetup (handleEnterResolve s))
        (handleEnterResolve s).currentTurnId = none := by
      rw [findTurn_setup_eq (handleEnterResolve s), handleEnterResolve_currentTurnId,
        handleEnterResolve_turns,
        find?_map_comm _ (fun t => t.id == s.currentTurnId) (fun t => by
          by_cases h : (t.id == s.currentTurnId) = true
          · rw [if_pos h]
          · rw [if_neg h]) s.turns,
        hbase]
      rfl
    rw [handleEnterResolve_eq_none (handleEnterResolve s) hff]
    exact ⟨rfl, rfl⟩
  | some turn =>
    have h1 := findTurn_setup_eq s
    rw [hf] at h1
    cases hbase : s.turns.find? (fun t => t.id == s.currentTurnId) with
    | none => rw [hbase] at h1; simp at h1
    | some t0 =>
      rw [hbase, Option.map_some'] at h1
      have ht0 := Option.some.inj h1
      have hff : findTurn (enterResolveSetup (handleEnterResolve s))
          (handleEnterResolve s).currentTurnId = some turn := by
        rw [findTurn_setup_eq (handleEnterResolve s), handleEnterResolve_currentTurnId,
          handleEnterResolve_turns,
          find?_map_comm _ (fun t => t.id == s.currentTurnId) (fun t => by
            by_cases h : (t.id == s.currentTurnId) = true
            · rw [if_pos h]
            · rw [if_neg h]) s.turns,
          hbase, Option.map_some']
        rw [ht0]
        exact congrArg some (resolveWrite_idem s.currentTurnId t0)
      constructor
      · rw [handleEnterResolve_provinces (handleEnterResolve s) turn hff,
          claimsOf_handleEnterResolve s turn hf,
          groupByProvince_map _ (fun o => by rw [foldWriteOrder_eq]) (claimsOf s),
          handleEnterResolve_provinces s turn hf, List.map_map]
        refine List.map_congr_left ?_
        intro pr _
        exact fwp_idem_general turn.seed (groupByProvince (claimsOf s)) _
          (fun i v => foldProvVal_groups_map turn.seed _
            (fun o => by rw [foldWriteOrder_eq]) (claimsOf s)
            (groupKeys (claimsOf s)) i v) pr
      · rw [handleEnterResolve_orders (handleEnterResolve s) turn hff,
          claimsOf_handleEnterResolve s turn hf,
          groupByProvince_map _ (fun o => by rw [foldWriteOrder_eq]) (claimsOf s),
          handleEnterResolve_orders s turn hf, List.map_map]
        refine List.map_congr_left ?_
        intro o _
        exact fwo_idem_general turn.seed (groupByProvince (claimsOf s)) _
          (fun oid st => foldStatus_groups_map turn.seed _
            (fun o => by rw [foldWriteOrder_eq]) (fun o => by rw [foldWriteOrder_eq])
            (claimsOf s) (groupKeys (claimsOf s)) oid st) o

/-! ## Claim C1

The resolver sorts contenders only by score (`b.score - a.score`); there
is no country-id tie-break in the code.  JavaScript's stable sort leaves
equal-score contenders in iteration order, so for a score collision the
winner depends on the order in which the orders are supplied.  The two
country ids below collide on the first 32 bits of SHA-256 under seed
`"s"` and target `"P"`. -/

def tieCidA : String := "000000005183"

def tieCidB : String := "000000011859"

/-- Lexicographic comparison of code-unit sequences, the order JavaScript's
`<` uses on strings (the ids involved are ASCII). -/
def codeUnitsLt : List Char → List Char → Bool
  | [], [] => false
  | [], _ :: _ => true
  | _ :: _, [] => false
  | a :: as, b :: bs =>
    if a.toNat < b.toNat then true
    else if b.toNat < a.toNat then false
    else codeUnitsLt as bs

def jsStringLt (a b : String) : Bool := codeUnitsLt a.data b.data

/-- C1 evidence: the two contenders' scores are equal, `tieCidA` is the
smaller country id, yet with supply order `[B, A]` the code makes B the
owner — the spec's ascending-country-id tie-break would give A the win
regardless of supply order, so the winner depends on iteration order. -/
theorem C1_code_bug :
    jsStringLt tieCidA tieCidB = true ∧
    scoreOf "s" "P" (claimOrder 1 tieCidA) = scoreOf "s" "P" (claimOrder 2 tieCidB) ∧
    (handleEnterResolve (fixState [claimOrder 1 tieCidA, claimOrder 2 tieCidB])).provinces =
      [{ id := "P", name := "P", ownerCountryId := some tieCidA, contested := false }] ∧
    (handleEnterResolve (fixState [claimOrder 2 tieCidB, claimOrder 1 tieCidA])).provinces =
      [{ id := "P", name := "P", ownerCountryId := some tieCidB, contested := false }] :=
  ⟨by decide, by decide, by decide, by decide⟩

/-! ## Claim C9 -/

def staleState : EngineState :=
  { fixState [] with turns := [{ fixTurn with turnNumber := 5, phase := Phase.commit }] }

/-- C9 counterexample: with a latest persisted turn #5 in phase `commit`,
`ensurePlanningTurn` creates turn #6, not turn #1. -/
theorem C9_counterexample :
    (ensurePlanningTurn staleState 120000 "T9" "seed9" 1000).currentTurnNumber = 6 ∧
    ¬ (ensurePlanningTurn staleState 120000 "T9" "seed9" 1000).currentTurnNumber = 1 :=
  ⟨by decide, by decide⟩

/-- C9 (amended): at process start the engine always begins in planning
with an empty ReadySet; a latest planning turn is resumed with its
stored id, number and deadline; otherwise a new planning turn is
created with a fresh seed and a deadline of now plus the planning
duration, numbered `latest.turnNumber + 1` when a latest turn exists
and 1 when no turn exists. -/
theorem C9_theorem (s : EngineState) (planningDurationMs : Nat) (newTurnId newSeed : String)
    (now : Nat) :
    (ensurePlanningTurn s planningDurationMs newTurnId newSeed now).currentPhase =
        Phase.planning ∧
    (ensurePlanningTurn s planningDurationMs newTurnId newSeed now).readyCountries = [] ∧
    (∀ l, latestTurn s = some l → l.phase = Phase.planning →
      (ensurePlanningTurn s planningDurationMs newTurnId newSeed now).currentTurnId = l.id ∧
      (ensurePlanningTurn s planningDurationMs newTurnId newSeed now).currentTurnNumber =
        l.turnNumber ∧
      (ensurePlanningTurn s planningDurationMs newTurnId newSeed now).phaseEndsAt =
        l.phaseEndsAt ∧
      (ensurePlanningTurn s planningDurationMs newTurnId newSeed now).turns = s.turns) ∧
    (∀ l, latestTurn s = some l → l.phase ≠ Phase.planning →
      (ensurePlanningTurn s planningDurationMs newTurnId newSeed now).currentTurnNumber =
        l.turnNumber + 1 ∧
      (ensurePlanningTurn s planningDurationMs newTurnId newSeed now).currentTurnId =
        newTurnId ∧
      (ensurePlanningTurn s planningDurationMs newTurnId newSeed now).phaseEndsAt =
        some (now + planningDurationMs) ∧
      (ensurePlanningTurn s planningDurationMs newTurnId newSeed now).turns =
        s.turns ++
          [{ id := newTurnId, turnNumber := l.turnNumber + 1, phase := Phase.planning,
             phaseEndsAt := some (now + planningDurationMs), committedAt := none,
             seed := newSeed }]) ∧
    (latestTurn s = none →
      (ensurePlanningTurn s planningDurationMs newTurnId newSeed now).currentTurnNumber = 1 ∧
      (ensurePlanningTurn s planningDurationMs newTurnId newSeed now).currentTurnId =
        newTurnId ∧
      (ensurePlanningTurn s planningDurationMs newTurnId newSeed now).phaseEndsAt =
        some (now + planningDurationMs) ∧
      (ensurePlanningTurn s planningDurationMs newTurnId newSeed now).turns =
        s.turns ++
          [{ id := newTurnId, turnNumber := 1, phase := Phase.planning,
             phaseEndsAt := some (now + planningDurationMs), committedAt := none,
             seed := newSeed }]) := by
  cases hl : latestTurn s with
  | none =>
    have he : ensurePlanningTurn s planningDurationMs newTurnId newSeed now =
        createPlanningTurn s planningDurationMs 1 newTurnId newSeed now := by
      unfold ensurePlanningTurn; rw [hl]
    refine ⟨by rw [he]; rfl, by rw [he]; rfl, ?_, ?_, ?_⟩
    · intro l' hl' _; cases hl'
    · intro l' hl' _; cases hl'
    · intro _; rw [he]; exact ⟨rfl, rfl, rfl, rfl⟩
  | some l =>
    by_cases hph : l.phase = Phase.planning
    · have he : ensurePlanningTurn s planningDurationMs newTurnId newSeed now =
          { s with
            currentTurnId := l.id, currentTurnNumber := l.turnNumber,
            currentPhase := Phase.planning, phaseEndsAt := l.phaseEndsAt,
            readyCountries := [], needsNewTurn := false } := by
        unfold ensurePlanningTurn; rw [hl]; dsimp only; rw [if_neg (not_not_intro hph)]
      refine ⟨by rw [he], by rw [he], ?_, ?_, ?_⟩
      · intro l' hl' _
        injection hl' with h2
        subst h2
        exact ⟨by rw [he], by rw [he], by rw [he], by rw [he]⟩
      · intro l' hl' hph'
        injection hl' with h2
        subst h2
        exact absurd hph hph'
      · intro hnone; cases hnone
    · have he : ensurePlanningTurn s planningDurationMs newTurnId newSeed now =
          createPlanningTurn s planningDurationMs (l.turnNumber + 1) newTurnId newSeed now := by
        unfold ensurePlanningTurn; rw [hl]; dsimp only; rw [if_pos hph]
      refine ⟨by rw [he]; rfl, by rw [he]; rfl, ?_, ?_, ?_⟩
      · intro l' hl' hph'
        injection hl' with h2
        subst h2
        exact absurd hph' hph
      · intro l' hl' _
        injection hl' with h2
        subst h2
        exact ⟨by rw [he]; rfl, by rw [he]; rfl, by rw [he]; rfl, by rw [he]; rfl⟩
      · intro hnone; cases hnone

theorem C9_witness :
    (ensurePlanningTurn staleState 120000 "T9" "seed9" 1000).currentPhase = Phase.planning ∧
    (ensurePlanningTurn staleState 120000 "T9" "seed9" 1000).readyCountries = [] ∧
    (ensurePlanningTurn staleState 120000 "T9" "seed9" 1000).currentTurnNumber = 5 + 1 :=
  ⟨(C9_theorem staleState 120000 "T9" "seed9" 1000).1,
   (C9_theorem staleState 120000 "T9" "seed9" 1000).2.1,
   ((C9_theorem staleState 120000 "T9" "seed9" 1000).2.2.2.1
      { fixTurn with turnNumber := 5, phase := Phase.commit } (by decide) (by decide)).1⟩

/-! ## Claim C10 -/

theorem ite_lt_of (P : Prop) [Decidable P] {a b n : Nat} (ha : a < n) (hb : b < n) :
    (if P then a else b) < n := by
  by_cases h : P
  · rw [if_pos h]; exact ha
  · rw [if_neg h]; exact hb

theorem hexVal_lt (c : Char) : hexVal c < 16 := by
  unfold hexVal
  repeat' apply ite_lt_of
  all_goals norm_num

theorem parseHex_bound :
    ∀ (cs : List Char) (acc : Nat),
      cs.foldl (fun a c => a * 16 + hexVal c) acc < (acc + 1) * 16 ^ cs.length := by
  intro cs
  induction cs with
  | nil => intro acc; simp
  | cons c t ih =>
    intro acc
    rw [List.foldl_cons]
    calc t.foldl (fun a c => a * 16 + hexVal c) (acc * 16 + hexVal c)
        < (acc * 16 + hexVal c + 1) * 16 ^ t.length := ih _
      _ ≤ ((acc + 1) * 16) * 16 ^ t.length := by
          have h := hexVal_lt c
          have h2 : acc * 16 + hexVal c + 1 ≤ (acc + 1) * 16 := by omega
          exact Nat.mul_le_mul_right _ h2
      _ = (acc + 1) * 16 ^ (c :: t).length := by rw [List.length_cons]; ring

/-- C10: `hashToScore` is total and its value always fits an unsigned
32-bit integer: for every input string it is a natural number strictly
below `2^32` (eight hex digits of the SHA-256 digest parsed base 16 can
never be `NaN`, negative, or fractional). -/
theorem C10_theorem : ∀ value : String, hashToScore value < 2 ^ 32 := by
  intro value
  have hlen : (((sha256Bytes (strBytes value)).flatMap byteToHex).take 8).length ≤ 8 :=
    List.length_take_le _ _
  have hb := parseHex_bound (((sha256Bytes (strBytes value)).flatMap byteToHex).take 8) 0
  have h1 : hashToScore value <
      (0 + 1) * 16 ^ (((sha256Bytes (strBytes value)).flatMap byteToHex).take 8).length := hb
  have h2 : (0 + 1) * 16 ^
      (((sha256Bytes (strBytes value)).flatMap byteToHex).take 8).length ≤ 16 ^ 8 := by
    rw [Nat.zero_add, Nat.one_mul]
    exact Nat.pow_le_pow_right (by norm_num) hlen
  have h3 : (16 : Nat) ^ 8 = 2 ^ 32 := by norm_num
  exact h3 ▸ lt_of_lt_of_le h1 h2

end WeGo
